import Mathlib

/-!
# Verification of the extract-IF journal / impact-factor pipeline

Shallow embedding of `src/extract-metadata.py` (journal-name extraction and
impact-factor lookup).  Python strings are modelled as Lean `String`/`List Char`
with the ASCII fragments of Python's character classes (`str.lower`, `str.strip`,
`\w`, `\s`, `\d`, `str.isalpha`); Python floats are modelled as exact rationals
(`ℚ`); pandas DataFrames are modelled as explicit row lists with the mutable
auxiliary `similarity` column made explicit; Python exceptions are modelled with
`Except`.  `difflib.SequenceMatcher` (invoked by `calculate_similarity` with
`isjunk = None`) is embedded in full: the `b2j` index with the autojunk purge of
popular elements, the dynamic-programming scan of `find_longest_match`, its two
live extension loops (the two junk-extension loops never fire because
`isjunk = None` leaves `bjunk` empty), and the recursive region-splitting of
`get_matching_blocks` (of which only the total matched size is needed by
`ratio`).
-/

/-- Python whitespace class (`str.strip`, regex `\s`), ASCII fragment. -/
def isPySpace (c : Char) : Bool :=
  c = ' ' || c = '\t' || c = '\n' || c = '\x0d' || c = '\x0b' || c = '\x0c'

/-- Python `str.isalpha`, ASCII fragment (`[A-Za-z]`). -/
def isPyAlpha (c : Char) : Bool :=
  ('a' ≤ c && c ≤ 'z') || ('A' ≤ c && c ≤ 'Z')

/-- Regex `\w` (word character), ASCII fragment (`[A-Za-z0-9_]`). -/
def isWordC (c : Char) : Bool :=
  isPyAlpha c || c.isDigit || c = '_'

/-- Regex `[A-Z]`. -/
def isUpperC (c : Char) : Bool := 'A' ≤ c && c ≤ 'Z'

/-- Python `str.lower`, ASCII fragment (maps `A`-`Z` to `a`-`z`). -/
def pyLower (s : String) : String := ⟨s.data.map Char.toLower⟩

/-- Python `str.strip` on a character list: drop leading and trailing whitespace. -/
def pyStripL (l : List Char) : List Char :=
  ((l.dropWhile isPySpace).reverse.dropWhile isPySpace).reverse

/-- Python `str.strip`. -/
def pyStrip (s : String) : String := ⟨pyStripL s.data⟩

/-!
## difflib.SequenceMatcher (as used with `isjunk = None`)
-/

/-- The ascending list of positions of character `c` in `b`
(the `b2j[c]` list built by `SequenceMatcher.__chain_b` before the purge). -/
def occList (b : List Char) (c : Char) : List Nat :=
  (List.range b.length).filter (fun j => b.getD j ' ' = c)

/-- The autojunk test of `__chain_b`: with `len(b) >= 200`, elements occurring in
more than `len(b) // 100 + 1` positions are "popular" and purged from `b2j`. -/
def isPopular (b : List Char) (c : Char) : Bool :=
  200 ≤ b.length && b.length / 100 + 1 < (occList b c).length

/-- `b2j.get(c, [])` after the autojunk purge (no `isjunk`, so no junk purge). -/
def b2jList (b : List Char) (c : Char) : List Nat :=
  if isPopular b c then [] else occList b c

/-- State of `find_longest_match`: the best block found so far. -/
structure FlmSt where
  besti : Nat
  bestj : Nat
  bestsize : Nat
  deriving DecidableEq

/-- The chain value `k = j2len.get(j-1, 0) + 1` of the DP of
`find_longest_match`.  `j2len` rows are total functions `Nat → Nat` with `0`
for absent keys (Python's `dict.get(j-1, 0)`; `j = 0` maps to the absent key
`-1`, hence the explicit guard). -/
def flmK (j2p : Nat → Nat) (j : Nat) : Nat :=
  (if j = 0 then 0 else j2p (j - 1)) + 1

/-- Inner loop of `find_longest_match` over the `b2j` positions of row `i`'s
character (already window-filtered): for each position `j` compute
`k = newj2len[j] = j2len.get(j-1, 0) + 1` from the previous row and record it
in the new row; update the best block (`besti, bestj = i-k+1, j-k+1`) when
`k > bestsize`. -/
def flmInner (j2p : Nat → Nat) (i : Nat) :
    List Nat → (Nat → Nat) → FlmSt → (Nat → Nat) × FlmSt
  | [], nj, st => (nj, st)
  | j :: rest, nj, st =>
      flmInner j2p i rest (fun j' => if j' = j then flmK j2p j else nj j')
        (if st.bestsize < flmK j2p j then
          ⟨i + 1 - flmK j2p j, j + 1 - flmK j2p j, flmK j2p j⟩
        else st)

/-- Outer loop of `find_longest_match` over the rows `alo, ..., ahi-1`
(passed as an explicit list); threads the previous `j2len` row and the best
block. -/
def flmRows (a b : List Char) (blo bhi : Nat) :
    List Nat → (Nat → Nat) → FlmSt → FlmSt
  | [], _, st => st
  | i :: rest, j2p, st =>
      let js := (b2jList b (a.getD i ' ')).filter (fun j => blo ≤ j && j < bhi)
      let p := flmInner j2p i js (fun _ => 0) st
      flmRows a b blo bhi rest p.1 p.2

/-- First extension loop of `find_longest_match`:
`while besti > alo and bestj > blo and a[besti-1] == b[bestj-1]` (the
`not isbjunk(...)` conjunct is identically true since `isjunk = None`).
Fuel-indexed; the initial `besti` is sufficient fuel. -/
def extLeft (a b : List Char) (alo blo : Nat) : Nat → FlmSt → FlmSt
  | 0, st => st
  | fuel + 1, st =>
      if alo < st.besti && blo < st.bestj &&
         a.getD (st.besti - 1) ' ' = b.getD (st.bestj - 1) ' ' then
        extLeft a b alo blo fuel ⟨st.besti - 1, st.bestj - 1, st.bestsize + 1⟩
      else st

/-- Second extension loop of `find_longest_match`:
`while besti+bestsize < ahi and bestj+bestsize < bhi and
a[besti+bestsize] == b[bestj+bestsize]` (again `not isbjunk(...)` is
identically true).  Fuel-indexed; `ahi` is sufficient fuel. -/
def extRight (a b : List Char) (ahi bhi : Nat) : Nat → FlmSt → FlmSt
  | 0, st => st
  | fuel + 1, st =>
      if st.besti + st.bestsize < ahi && st.bestj + st.bestsize < bhi &&
         a.getD (st.besti + st.bestsize) ' ' = b.getD (st.bestj + st.bestsize) ' ' then
        extRight a b ahi bhi fuel ⟨st.besti, st.bestj, st.bestsize + 1⟩
      else st

/-- `SequenceMatcher.find_longest_match(alo, ahi, blo, bhi)` with `isjunk = None`:
the DP scan followed by the two live extension loops (the two junk-extension
loops are no-ops because `bjunk` is empty). -/
def findLongestMatch (a b : List Char) (alo ahi blo bhi : Nat) : FlmSt :=
  let st := flmRows a b blo bhi (List.range' alo (ahi - alo)) (fun _ => 0) ⟨alo, blo, 0⟩
  let st := extLeft a b alo blo st.besti st
  extRight a b ahi bhi ahi st

/-- Total size of the matching blocks of `get_matching_blocks` on the region
`(alo, ahi, blo, bhi)`: the queue in the Python source visits exactly the two
sub-regions on each side of the longest match, and `ratio` only consumes the
sum of the block sizes (the adjacent-block merge and the terminal zero-size
sentinel do not change the sum).  Fuel-indexed; `len(a) + len(b) + 1` is
sufficient fuel for the top-level region. -/
def matchSum (a b : List Char) : Nat → Nat → Nat → Nat → Nat → Nat
  | 0, _, _, _, _ => 0
  | fuel + 1, alo, ahi, blo, bhi =>
      let st := findLongestMatch a b alo ahi blo bhi
      if st.bestsize = 0 then 0
      else
        matchSum a b fuel alo st.besti blo st.bestj + st.bestsize +
          matchSum a b fuel (st.besti + st.bestsize) ahi (st.bestj + st.bestsize) bhi

/-- `SequenceMatcher.ratio()`: `2.0 * M / T` where `M` is the total size of the
matching blocks and `T = len(a) + len(b)`; `1.0` when `T = 0`. -/
def ratioOf (a b : List Char) : ℚ :=
  let m := matchSum a b (a.length + b.length + 1) 0 a.length 0 b.length
  if a.length + b.length = 0 then 1 else (2 * m : ℚ) / ((a.length : ℚ) + b.length)

/-- `calculate_similarity(str1, str2)` from the source:
`SequenceMatcher(None, str1.lower(), str2.lower()).ratio()`. -/
def calculate_similarity (str1 str2 : String) : ℚ :=
  ratioOf (pyLower str1).data (pyLower str2).data

/-!
## Reference table and the Impact Factor Resolver (`get_impact_factor`)
-/

/-- One row of the journal DataFrame as produced by `load_journal_database`:
display name, impact factor, and the precomputed `journal_name_lower`
(lowercased and stripped display name). -/
structure JRow where
  journal_name : String
  impact_factor : ℚ
  journal_name_lower : String
  deriving DecidableEq

instance : Inhabited JRow := ⟨⟨"", 0, ""⟩⟩

/-- The journal DataFrame.  `get_impact_factor` mutates its argument in place by
assigning `df['similarity'] = ...`, so the auxiliary `similarity` column is part
of the modelled state (`none` when the column is absent). -/
structure JTable where
  rows : List JRow
  similarity : Option (List ℚ)
  deriving DecidableEq

/-- Index of the first occurrence of the maximum of a list
(`pandas.Series.idxmax` over a default `RangeIndex`); `none` on the empty list,
on which pandas raises `ValueError`. -/
def argmaxIdx : List ℚ → Option Nat
  | [] => none
  | x :: xs =>
      match argmaxIdx xs with
      | none => some 0
      | some j => if x < xs.getD j 0 then some (j + 1) else some 0

/-- Round half to even at integer precision (Python's `round` tie rule,
modelled exactly on rationals). -/
def rhe (q : ℚ) : ℤ :=
  let f := ⌊q⌋
  let r := q - f
  if r < 1 / 2 then f else if 1 / 2 < r then f + 1 else if f % 2 = 0 then f else f + 1

/-- Python `round(x, 3)`, modelled as exact decimal rounding half-to-even. -/
def round3 (q : ℚ) : ℚ := ((rhe (q * 1000) : ℚ)) / 1000

/-- The dictionary returned by a successful `get_impact_factor` lookup.  The
`similarity` key is present exactly in fuzzy results (the success record later
reads it with `.get`, producing `None` for exact matches). -/
structure IFInfo where
  journal_name : String
  impact_factor : ℚ
  match_type : String
  similarity : Option ℚ
  deriving DecidableEq

/-- `get_impact_factor(journal_name, df, threshold=0.85)`.  Returns the lookup
result together with the post-call table (the fuzzy path assigns the
`similarity` column of `df` in place).  The result is `Except.error` exactly
when pandas raises: `Series.idxmax` on an empty frame raises `ValueError`.
Exact match first (`iloc[0]`: first row in table order); otherwise similarity
of every `journal_name_lower` against the cleaned candidate, best row by
`idxmax` (first occurrence of the maximum), accepted iff `best >= threshold`,
with the reported similarity rounded to 3 decimal places. -/
def get_impact_factor (journal_name : String) (df : JTable) (threshold : ℚ) :
    Except String (Option IFInfo) × JTable :=
  let journal_name_clean := pyStrip (pyLower journal_name)
  match df.rows.find? (fun r => r.journal_name_lower = journal_name_clean) with
  | some row =>
      (Except.ok (some ⟨row.journal_name, row.impact_factor, "exact", none⟩), df)
  | none =>
      let sims := df.rows.map (fun r => calculate_similarity r.journal_name_lower journal_name_clean)
      let df' : JTable := ⟨df.rows, some sims⟩
      match argmaxIdx sims with
      | none => (Except.error "attempt to get argmax of an empty sequence", df')
      | some i =>
          let best := sims.getD i 0
          if threshold ≤ best then
            (Except.ok (some ⟨(df.rows.getD i default).journal_name,
              (df.rows.getD i default).impact_factor, "fuzzy", some (round3 best)⟩), df')
          else (Except.ok none, df')

/-!
## Journal Name Extractor (`extract_journal_from_subject`, `extract_journal_name`)

Each regular expression of the source is translated into a bespoke matcher with
Python `re` semantics (leftmost match; greedy/lazy quantifier order).  Where a
quantifier is followed by a piece starting with a character disjoint from the
quantifier's class (e.g. `\s*` followed by a non-space literal), backtracking
is forced to the full run and the matcher uses the run directly.
-/

/-- `subject.split(',')[0]`: the text before the first comma. -/
def beforeComma (s : String) : String := ⟨s.data.takeWhile (· ≠ ',')⟩

/-- `re.sub(r'^[^\w\s]+', '', s)`: strip the leading run of characters that are
neither word characters nor whitespace. -/
def stripLeadPunct (s : String) : String :=
  ⟨s.data.dropWhile (fun c => !(isWordC c || isPySpace c))⟩

/-- Index of the first case-insensitive occurrence of `doi:`
(`'doi:' in subject.lower()` / the leftmost `doi:` of `re.split`). -/
def doiIdx (l : List Char) : Option Nat :=
  (List.range l.length).find? (fun d => ((l.drop d).take 4).map Char.toLower = "doi:".data)

/-- `re.split(r'\s*doi:', subject, flags=re.IGNORECASE)[0]`: the text before the
leftmost match, which starts at the first `doi:` occurrence minus the whitespace
run immediately preceding it (the match cannot start earlier, since any earlier
start would put a non-whitespace character inside `\s*`). -/
def beforeDoi (s : String) : String :=
  match doiIdx s.data with
  | none => s
  | some d => ⟨((s.data.take d).reverse.dropWhile isPySpace).reverse⟩

/-- Regex `(?:19|20)\d{2}` as a prefix test. -/
def isYearStart (l : List Char) : Bool :=
  match l with
  | c1 :: c2 :: c3 :: c4 :: _ =>
      ((c1 = '1' && c2 = '9') || (c1 = '2' && c2 = '0')) && c3.isDigit && c4.isDigit
  | _ => false

/-- At a split point: regex `\s+(?:19|20)\d{2}` as a prefix test.  The year
starts with a non-space digit, so `\s+` is forced to the whole whitespace run. -/
def yearAfterWs (rest : List Char) : Bool :=
  !(rest.takeWhile isPySpace).isEmpty && isYearStart (rest.dropWhile isPySpace)

/-- `re.search(r'^(.+?)\s+(?:19|20)\d{2}', subject)` (no MULTILINE, so `^` only
matches at position 0): the lazy group takes the shortest newline-free nonempty
prefix after which `\s+(?:19|20)\d{2}` matches; returns `group(1)`. -/
def yearRule (s : String) : Option String :=
  let l := s.data
  ((List.range' 1 l.length).filter
      (fun g => (l.take g).all (· ≠ '\n') && yearAfterWs (l.drop g))).head?.map
    (fun g => (⟨l.take g⟩ : String))

/-- Character class `[\d,.:\-]` of the trailing-noise pattern. -/
def isNumPunct (c : Char) : Bool :=
  c.isDigit || c = ',' || c = '.' || c = ':' || c = '-'

/-- `re.sub(r'\s*[\d,.:\-]+\s*$', '', subject)` on an already-stripped subject
(no trailing whitespace, so the trailing `\s*` is empty and `$` is the true
end): remove the maximal trailing `[\d,.:\-]` run, if nonempty, together with
the whitespace run immediately before it (the leftmost match). -/
def stripTrailNoise (s : String) : String :=
  let rl := s.data.reverse
  let dRun := rl.takeWhile isNumPunct
  if dRun.isEmpty then s
  else ⟨((rl.drop dRun.length).dropWhile isPySpace).reverse⟩

/-- Methods 2-4 of `extract_journal_from_subject` applied to the stripped
subject: the doi rule, the year rule, and the trailing-noise fallback. -/
def subjectRest (subject : String) : Option String :=
  if (doiIdx subject.data).isSome && !(pyStrip (beforeDoi subject)).isEmpty then
    some (pyStrip (beforeDoi subject))
  else
    match yearRule subject with
    | some g => some (pyStrip g)
    | none =>
        let cleaned := pyStrip (stripTrailNoise subject)
        if !cleaned.isEmpty && 3 < cleaned.length then some cleaned else none

/-- `extract_journal_from_subject(subject)`.  Empty subject is falsy; the
subject is stripped; method 1 (comma rule) returns only when the before-comma
fragment is nonempty and contains a letter, otherwise the function falls
through to methods 2-4 (`subjectRest`). -/
def extract_journal_from_subject (subject0 : String) : Option String :=
  if subject0.data.isEmpty then none
  else
    let subject := pyStrip subject0
    if subject.data.contains ',' &&
        !(pyStrip (beforeComma subject)).isEmpty &&
        (pyStrip (beforeComma subject)).data.any isPyAlpha then
      some (stripLeadPunct (pyStrip (beforeComma subject)))
    else subjectRest subject

/-- Character class `[A-Za-z\s&\-:]` shared by the four text patterns. -/
def isCls1 (c : Char) : Bool :=
  isPyAlpha c || isPySpace c || c = '&' || c = '-' || c = ':'

/-- Terminator `(?:\n|,|Vol|\d{4})` of pattern 1 as a prefix test. -/
def pat1Term (l : List Char) : Bool :=
  match l with
  | [] => false
  | c :: _ => c = '\n' || c = ',' || l.take 3 = "Vol".data ||
      ((l.take 4).length = 4 && (l.take 4).all Char.isDigit)

/-- Group-and-terminator core shared by patterns 1, 2 and 4: capture
`[A-Z][A-Za-z\s&\-:]+?` lazily (shortest `n ≥ 1` class characters after the
uppercase head) such that `term` matches right after the group. -/
def lazyGroup (term : List Char → Bool) (l : List Char) : Option (List Char) :=
  match l with
  | [] => none
  | c :: rest =>
      if isUpperC c then
        (List.range (rest.takeWhile isCls1).length).findSome? (fun n0 =>
          if term (rest.drop (n0 + 1)) then some (c :: rest.take (n0 + 1)) else none)
      else none

/-- After the literal (and optional colon) of pattern 1: `\s*` forced to the
full run (the group's head `[A-Z]` is not whitespace), then the lazy group. -/
def pat1Core (r : List Char) : Option (List Char) :=
  lazyGroup pat1Term (r.dropWhile isPySpace)

/-- Pattern 1, `Published in:?\s*([A-Z][A-Za-z\s&\-:]+?)(?:\n|,|Vol|\d{4})`, at
one start position.  The optional colon is greedy: the with-colon continuation
is tried first and the without-colon one on its failure. -/
def pat1At (l : List Char) : Option (List Char) :=
  if l.take 12 = "Published in".data then
    match l.drop 12 with
    | ':' :: rest =>
        match pat1Core rest with
        | some g => some g
        | none => pat1Core (':' :: rest)
    | afterLit => pat1Core afterLit
  else none

/-- Tail `\s+Vol\.\s*\d+` of pattern 2 as a prefix test (`V` and digits are not
whitespace, so both whitespace quantifiers are forced to their full runs). -/
def pat2Term (l : List Char) : Bool :=
  !(l.takeWhile isPySpace).isEmpty &&
    (let r := l.dropWhile isPySpace
     r.take 4 = "Vol.".data &&
      (match (r.drop 4).dropWhile isPySpace with
       | c :: _ => c.isDigit
       | [] => false))

/-- Pattern 2, `([A-Z][A-Za-z\s&\-:]+?)\s+Vol\.\s*\d+`, at one start position. -/
def pat2At (l : List Char) : Option (List Char) := lazyGroup pat2Term l

/-- Pattern 3, `Journal:\s*([A-Z][A-Za-z\s&\-:]+)`, at one start position: after
the literal and the forced whitespace run, the group takes the uppercase head
and the maximal (greedy) nonempty class run. -/
def pat3At (l : List Char) : Option (List Char) :=
  if l.take 8 = "Journal:".data then
    match (l.drop 8).dropWhile isPySpace with
    | c :: rest =>
        if isUpperC c then
          let run := rest.takeWhile isCls1
          if run.isEmpty then none else some (c :: run)
        else none
    | [] => none
  else none

/-- Tail `\s+\d{4}` of pattern 4 as a prefix test. -/
def pat4Term (l : List Char) : Bool :=
  !(l.takeWhile isPySpace).isEmpty &&
    (let r := l.dropWhile isPySpace
     (r.take 4).length = 4 && (r.take 4).all Char.isDigit)

/-- Pattern 4, `©.*?(\b[A-Z][A-Za-z\s&\-:]+?)\s+\d{4}`, at one start position:
after `©`, the lazy gap `.*?` (newline-free, shortest first) ends at a word
boundary `\b` — the group head `[A-Z]` is a word character, so the character
before it (`©` for an empty gap, modelled as non-word in the ASCII fragment)
must not be one. -/
def pat4At (l : List Char) : Option (List Char) :=
  match l with
  | c0 :: rest =>
      if c0 = '©' then
        (List.range ((rest.takeWhile (· ≠ '\n')).length + 1)).findSome? (fun m =>
          let prev := if m = 0 then '©' else rest.getD (m - 1) '©'
          if isWordC prev then none else lazyGroup pat4Term (rest.drop m))
      else none
  | [] => none

/-- `re.search`: leftmost start position wins; within a position the matcher's
own backtracking order applies. -/
def reSearch (patAt : List Char → Option (List Char)) (s : String) : Option String :=
  ((List.range (s.data.length + 1)).findSome? (fun p => patAt (s.data.drop p))).map
    (fun g => (⟨g⟩ : String))

/-- Method 2 of `extract_journal_name`: the four patterns tried in order against
`text[:2000]`, returning the stripped first capture group of the first pattern
that matches anywhere. -/
def patternPath (text : String) : Option String :=
  let t : String := ⟨text.data.take 2000⟩
  match reSearch pat1At t with
  | some g => some (pyStrip g)
  | none =>
    match reSearch pat2At t with
    | some g => some (pyStrip g)
    | none =>
      match reSearch pat3At t with
      | some g => some (pyStrip g)
      | none =>
        match reSearch pat4At t with
        | some g => some (pyStrip g)
        | none => none

/-- The PDF metadata bag: key/value pairs; `metadata.get(k)` is the first value
bound to `k`. -/
def metaGet (metadata : List (String × String)) (k : String) : Option String :=
  (metadata.find? (fun p => p.1 = k)).map (fun p => p.2)

/-- `extract_journal_name(text, metadata)`: the subject heuristic (when the
`/Subject` value is truthy and the sub-chain yields a truthy name) and
otherwise the text patterns. -/
def extract_journal_name (text : String) (metadata : List (String × String)) :
    Option String :=
  match metaGet metadata "/Subject" with
  | some subj =>
      if subj.data.isEmpty then patternPath text
      else
        match extract_journal_from_subject subj with
        | some jn => if jn.data.isEmpty then patternPath text else some jn
        | none => patternPath text
  | none => patternPath text

/-!
## Per-document processing (`process_pdf`) and the batch loop (`batch_process_pdfs`)

The document-reading collaborators (`extract_text_from_pdf`, `extract_metadata`)
are modelled by their outcomes: an `Except` value per call, in the order the
source calls them.  The result dictionary is modelled as a structure whose
`Option` fields are the keys that are present only on some paths.
-/

/-- The per-document result dictionary of `process_pdf`. -/
structure PdfOutcome where
  status : String
  message : Option String
  extracted_text_preview : Option String
  extracted_journal_name : Option String
  matched_journal_name : Option String
  impact_factor : Option ℚ
  match_type : Option String
  similarity : Option ℚ
  deriving DecidableEq

/-- `process_pdf(pdf_path, journal_df)` with the table already provided (the
batch loop preloads it, so the `journal_df is None` reload branch is not
taken).  `textRes` and `mdRes` are the outcomes of the two reading calls; any
exception from either is caught and converted to the error outcome (without any
text preview).  A falsy extracted name (none or empty) yields the
name-extraction error outcome carrying `text[:500]`.  An exception escaping
`get_impact_factor` (empty table) is not caught and propagates as
`Except.error`.  Returns the outcome together with the post-call table. -/
def process_pdf (textRes : Except String String)
    (mdRes : Except String (List (String × String))) (journal_df : JTable) :
    Except String PdfOutcome × JTable :=
  match textRes with
  | Except.error e =>
      (Except.ok ⟨"error", some ("读取PDF失败: " ++ e), none, none, none, none, none, none⟩,
        journal_df)
  | Except.ok text =>
    match mdRes with
    | Except.error e =>
        (Except.ok ⟨"error", some ("读取PDF失败: " ++ e), none, none, none, none, none, none⟩,
          journal_df)
    | Except.ok metadata =>
      let jn? := extract_journal_name text metadata
      match jn? with
      | none =>
          (Except.ok ⟨"error", some "未能识别期刊名称", some ⟨text.data.take 500⟩,
            none, none, none, none, none⟩, journal_df)
      | some jn =>
        if jn.data.isEmpty then
          (Except.ok ⟨"error", some "未能识别期刊名称", some ⟨text.data.take 500⟩,
            none, none, none, none, none⟩, journal_df)
        else
          match get_impact_factor jn journal_df (17 / 20) with
          | (Except.error e, df') => (Except.error e, df')
          | (Except.ok none, df') =>
              (Except.ok ⟨"not_found", some "未找到匹配的期刊", none, some jn,
                none, none, none, none⟩, df')
          | (Except.ok (some info), df') =>
              (Except.ok ⟨"success", none, none, some jn, some info.journal_name,
                some info.impact_factor, some info.match_type, info.similarity⟩, df')

/-- The read outcomes of one document of a batch: the `extract_text_from_pdf`
call followed by the `extract_metadata` call. -/
def ReadPair := Except String String × Except String (List (String × String))

/-- The loop body of `batch_process_pdfs` over the (already discovered, sorted)
documents with the preloaded table: each document's outcome is appended in
order; an exception escaping `process_pdf` aborts the whole loop.  (The
`file_path` / `file_name` bookkeeping keys and the console printing are
omitted.) -/
def batch_process_pdfs (docs : List ReadPair) (journal_df : JTable) :
    Except String (List PdfOutcome × JTable) :=
  docs.foldl
    (fun acc d =>
      match acc with
      | Except.error e => Except.error e
      | Except.ok (rs, t) =>
        match process_pdf d.1 d.2 t with
        | (Except.error e, _) => Except.error e
        | (Except.ok r, t') => Except.ok (rs ++ [r], t'))
    (Except.ok ([], journal_df))

instance : Inhabited PdfOutcome := ⟨⟨"", none, none, none, none, none, none, none⟩⟩

/-- The outcome `process_pdf` records for one document (total helper for
stating the batch loop's behaviour; meaningful when `process_pdf` does not
raise). -/
def outcomeOf (d : ReadPair) (df : JTable) : PdfOutcome :=
  match (process_pdf d.1 d.2 df).1 with
  | Except.ok r => r
  | Except.error _ => default

/-- Window-containment of a `find_longest_match` state: the block lies inside
`[alo, ahi) × [blo, bhi)`. -/
def StWin (alo ahi blo bhi : Nat) (st : FlmSt) : Prop :=
  alo ≤ st.besti ∧ blo ≤ st.bestj ∧ st.besti + st.bestsize ≤ ahi ∧
    st.bestj + st.bestsize ≤ bhi

/-- Invariant of a `j2len` row before processing row `r` of the window
`[alo, _) × [blo, bhi)`: entries are bounded by the number of processed rows
and by their distance into the `b` window. -/
def J2Win (alo blo bhi r : Nat) (f : Nat → Nat) : Prop :=
  ∀ j, f j ≤ r - alo ∧ (f j ≠ 0 → blo ≤ j ∧ j < bhi ∧ f j ≤ j + 1 - blo)

/-- The `j2len` chain value of the DP of `find_longest_match` on the symmetric
region `(lo, hi, lo, hi)` of `s` against itself, at ending pair `(i, j)`: the
length of the common suffix run ending at `(i, j)` through window-admissible
`b2j` positions. -/
def chain (s : List Char) (lo hi : Nat) : Nat → Nat → Nat
  | i, j =>
    if lo ≤ j ∧ j < hi ∧ j ∈ b2jList s (s.getD i ' ') then
      (if h : lo < i ∧ 0 < j then chain s lo hi (i - 1) (j - 1) else 0) + 1
    else 0
  termination_by i _ => i
  decreasing_by simp_wf; omega

/-!
## Shared auxiliary lemmas
-/

theorem argmaxIdx_isSome (l : List ℚ) (h : l ≠ []) : (argmaxIdx l).isSome := by
  cases l with
  | nil => exact absurd rfl h
  | cons x xs =>
      simp only [argmaxIdx]
      cases argmaxIdx xs with
      | none => rfl
      | some j => dsimp only; split <;> rfl

theorem argmaxIdx_lt (l : List ℚ) (j : Nat) (h : argmaxIdx l = some j) : j < l.length := by
  induction l generalizing j with
  | nil => simp [argmaxIdx] at h
  | cons x xs ih =>
      simp only [argmaxIdx] at h
      cases hxs : argmaxIdx xs with
      | none => rw [hxs] at h; simp only [Option.some.injEq] at h; simp; omega
      | some j' =>
          rw [hxs] at h
          dsimp only at h
          split at h <;> simp only [Option.some.injEq] at h <;> subst h
          · have := ih j' hxs; simp; omega
          · simp

theorem getD_map_rows (l : List JRow) (f : JRow → ℚ) (i : Nat) (h : i < l.length) :
    (l.map f).getD i 0 = f (l.getD i default) := by
  induction l generalizing i with
  | nil => simp at h
  | cons x xs ih =>
      cases i with
      | zero => simp
      | succ i' => simpa using ih i' (by simpa using h)

theorem argmaxIdx_first (l : List ℚ) (i : Nat) (hi : i < l.length)
    (hmax : ∀ k, k < l.length → l.getD k 0 ≤ l.getD i 0)
    (hfirst : ∀ k, k < i → l.getD k 0 < l.getD i 0) :
    argmaxIdx l = some i := by
  induction l generalizing i with
  | nil => simp at hi
  | cons x xs ih =>
      cases i with
      | zero =>
          simp only [argmaxIdx]
          cases hxs : argmaxIdx xs with
          | none => rfl
          | some j =>
              have hj := argmaxIdx_lt xs j hxs
              have hle : xs.getD j 0 ≤ x := by
                have h1 := hmax (j + 1) (by simp; omega)
                simpa using h1
              dsimp only
              rw [if_neg (not_lt.mpr hle)]
      | succ i' =>
          have hi' : i' < xs.length := by simpa using hi
          have hrec : argmaxIdx xs = some i' := by
            refine ih i' hi' (fun k hk => ?_) (fun k hk => ?_)
            · simpa using hmax (k + 1) (by simpa using Nat.succ_lt_succ hk)
            · simpa using hfirst (k + 1) (Nat.succ_lt_succ hk)
          have hx : x < xs.getD i' 0 := by
            simpa using hfirst 0 (Nat.succ_pos i')
          simp only [argmaxIdx, hrec]
          rw [if_pos hx]

theorem find?_at_first {α : Type} [Inhabited α] (p : α → Bool) (l : List α) (i : Nat)
    (hi : i < l.length) (hp : p (l.getD i default) = true)
    (hmin : ∀ k, k < i → p (l.getD k default) = false) :
    l.find? p = some (l.getD i default) := by
  induction l generalizing i with
  | nil => simp at hi
  | cons x xs ih =>
      cases i with
      | zero => simp only [List.getD_cons_zero] at hp ⊢; simp [List.find?, hp]
      | succ i' =>
          have h0 : p x = false := by simpa using hmin 0 (Nat.succ_pos i')
          simp only [List.getD_cons_succ]
          rw [List.find?, h0]
          exact ih i' (by simpa using hi)
            (by simpa using hp)
            (fun k hk => by simpa using hmin (k + 1) (Nat.succ_lt_succ hk))

theorem gif_sets_similarity (n : String) (df : JTable) (t : ℚ)
    (hf : df.rows.find? (fun r => r.journal_name_lower = pyStrip (pyLower n)) = none) :
    (get_impact_factor n df t).2.similarity =
      some (df.rows.map (fun r => calculate_similarity r.journal_name_lower (pyStrip (pyLower n)))) := by
  simp only [get_impact_factor, hf]
  split
  · rfl
  · split <;> rfl

theorem gif_rows_eq (n : String) (df : JTable) (t : ℚ) :
    ((get_impact_factor n df t).2).rows = df.rows := by
  simp only [get_impact_factor]
  split
  · rfl
  · split
    · rfl
    · split <;> rfl

theorem gif_ok (n : String) (df : JTable) (t : ℚ) (h : df.rows ≠ []) :
    ∃ r, (get_impact_factor n df t).1 = Except.ok r := by
  have hne : df.rows.map
      (fun r => calculate_similarity r.journal_name_lower (pyStrip (pyLower n))) ≠ [] := by
    simpa using h
  have hsome := argmaxIdx_isSome _ hne
  simp only [get_impact_factor]
  split
  · exact ⟨_, rfl⟩
  · split
    · rename_i ha; rw [ha] at hsome; simp at hsome
    · split
      · exact ⟨_, rfl⟩
      · exact ⟨_, rfl⟩

theorem gif_fst_rows_only (n : String) (t1 t2 : JTable) (thr : ℚ) (h : t1.rows = t2.rows) :
    (get_impact_factor n t1 thr).1 = (get_impact_factor n t2 thr).1 := by
  simp only [get_impact_factor, h]
  split
  · rfl
  · split
    · rfl
    · split <;> rfl

/-!
## Claims C1, C2, C3, C7, C9
-/

/-- C1, counterexample: for the document with empty text and empty metadata the
extractor yields no journal name, and `process_pdf` records status `error`
(with the name-extraction message and the text preview), not `not_found`. -/
theorem C1_counterexample :
    (process_pdf (Except.ok "") (Except.ok []) ⟨[⟨"Nature", 5, "nature"⟩], none⟩).1 =
      Except.ok ⟨"error", some "未能识别期刊名称", some "", none, none, none, none, none⟩ := by
  rfl

/-- C1 (corrected): when the Journal Name Extractor yields no name, the
resulting outcome has status `error` — carrying the fixed message and the
500-character text preview — not `not_found`; `not_found` arises only when the
Resolver returns no match for an extracted name. -/
theorem C1_amended (text : String) (md : List (String × String)) (df : JTable)
    (h : extract_journal_name text md = none) :
    (process_pdf (Except.ok text) (Except.ok md) df).1 =
      Except.ok ⟨"error", some "未能识别期刊名称", some ⟨text.data.take 500⟩,
        none, none, none, none, none⟩ := by
  simp only [process_pdf, h]

theorem C1_witness :
    (process_pdf (Except.ok "") (Except.ok []) ⟨[], none⟩).1 =
      Except.ok ⟨"error", some "未能识别期刊名称", some "", none, none, none, none, none⟩ :=
  C1_amended "" [] ⟨[], none⟩ (by rfl)

/-- C2, counterexample: a lookup that reaches the fuzzy step mutates the table
it was given — `get_impact_factor` assigns the `similarity` column in place, so
the post-call table differs from the pre-call table. -/
theorem C2_counterexample :
    (get_impact_factor "science" ⟨[⟨"Nature", 5, "nature"⟩], none⟩ (17 / 20)).2 ≠
      (⟨[⟨"Nature", 5, "nature"⟩], none⟩ : JTable) := by
  intro h
  have hs := gif_sets_similarity "science" ⟨[⟨"Nature", 5, "nature"⟩], none⟩ (17 / 20) (by decide)
  rw [h] at hs
  exact Option.noConfusion hs

/-- C2 (corrected): a lookup never adds, removes or modifies any row — the
`journal_name`, `impact_factor` and `journal_name_lower` data are untouched —
but a lookup that reaches the fuzzy step assigns (adds or overwrites) the
auxiliary `similarity` column of the table in place; an exact-match lookup
leaves the table entirely unchanged. -/
theorem C2_amended (n : String) (df : JTable) (t : ℚ) :
    ((get_impact_factor n df t).2).rows = df.rows ∧
      (df.rows.find? (fun r => r.journal_name_lower = pyStrip (pyLower n)) ≠ none →
        (get_impact_factor n df t).2 = df) := by
  constructor
  · exact gif_rows_eq n df t
  · intro hex
    simp only [get_impact_factor]
    split
    · rfl
    · rename_i hf; exact absurd hf hex

theorem C2_witness :
    (get_impact_factor "NATURE " ⟨[⟨"Nature", 5, "nature"⟩], none⟩ (17 / 20)).2 =
      (⟨[⟨"Nature", 5, "nature"⟩], none⟩ : JTable) :=
  (C2_amended "NATURE " ⟨[⟨"Nature", 5, "nature"⟩], none⟩ (17 / 20)).2 (by decide)

/-- C3, counterexample: on the empty reference table the fuzzy step's `idxmax`
raises `ValueError` (modelled as `Except.error`), so `get_impact_factor` does
not return a result for every table. -/
theorem C3_counterexample :
    (get_impact_factor "x" ⟨[], none⟩ (17 / 20)).1 =
      Except.error "attempt to get argmax of an empty sequence" := by
  rfl

/-- C3 (corrected): for every candidate name, every *non-empty* reference table
and every threshold, `get_impact_factor` returns normally (a match or `none`);
on the empty table the fuzzy step's `idxmax` raises. -/
theorem C3_amended (n : String) (df : JTable) (t : ℚ) (h : df.rows ≠ []) :
    ∃ r, (get_impact_factor n df t).1 = Except.ok r :=
  gif_ok n df t h

theorem C3_witness :
    ∃ r, (get_impact_factor "x" ⟨[⟨"Nature", 5, "nature"⟩], none⟩ (17 / 20)).1 =
      Except.ok r :=
  C3_amended "x" ⟨[⟨"Nature", 5, "nature"⟩], none⟩ (17 / 20) (by decide)

/-- C7, counterexample: for the subject `"123, doi:4"` the fragment before the
first comma is purely numeric, yet the sub-chain does not return `none`: it
falls through to the doi rule and returns `"123,"`. -/
theorem C7_counterexample :
    extract_journal_from_subject "123, doi:4" = some "123," := by
  rfl

/-- C7 (corrected): only the first *succeeding* sub-rule fires: when the
subject contains a comma but the fragment before the first comma has no
alphabetic character, the comma rule does not decide the result — the
sub-chain continues with the doi, year and trailing-strip rules
(`subjectRest`) on the stripped subject. -/
theorem C7_amended (s : String) (h0 : s.data ≠ [])
    (h2 : ¬((pyStrip (beforeComma (pyStrip s))).data.any isPyAlpha = true)) :
    extract_journal_from_subject s = subjectRest (pyStrip s) := by
  unfold extract_journal_from_subject
  simp only [List.isEmpty_iff, h0, if_false]
  have : ((pyStrip (beforeComma (pyStrip s))).data.any isPyAlpha) = false :=
    Bool.eq_false_iff.mpr (fun hc => h2 hc)
  simp [this]

theorem C7_witness :
    extract_journal_from_subject "123, doi:4" = subjectRest (pyStrip "123, doi:4") :=
  C7_amended "123, doi:4" (by decide) (by decide)

/-- C9, counterexample: reading this document obtains text (`"PARTIAL TEXT"`)
before the metadata call fails, yet the recorded Error outcome carries no
text preview at all. -/
theorem C9_counterexample :
    (process_pdf (Except.ok "PARTIAL TEXT") (Except.error "meta fail") ⟨[], none⟩).1 =
      Except.ok ⟨"error", some "读取PDF失败: meta fail", none, none, none, none, none, none⟩ := by
  rfl

/-- C9 (corrected): a read-failure Error outcome carries a descriptive message
but never a text preview, even when text was obtained before the failure; the
truncated preview capped at 500 characters accompanies the name-extraction
failure outcome instead. -/
theorem C9_amended :
    (∀ e md df, (process_pdf (Except.error e) md df).1 =
        Except.ok ⟨"error", some ("读取PDF失败: " ++ e), none, none, none, none, none, none⟩) ∧
    (∀ t e (df : JTable), (process_pdf (Except.ok t) (Except.error e) df).1 =
        Except.ok ⟨"error", some ("读取PDF失败: " ++ e), none, none, none, none, none, none⟩) ∧
    (∀ t md df, extract_journal_name t md = none →
        (process_pdf (Except.ok t) (Except.ok md) df).1 =
          Except.ok ⟨"error", some "未能识别期刊名称", some ⟨t.data.take 500⟩,
            none, none, none, none, none⟩ ∧ (t.data.take 500).length ≤ 500) := by
  refine ⟨fun e md df => rfl, fun t e df => rfl, fun t md df h => ⟨?_, ?_⟩⟩
  · simp only [process_pdf, h]
  · exact le_trans (Nat.le_of_eq (List.length_take 500 t.data)) (Nat.min_le_left _ _)

theorem C9_witness :
    (process_pdf (Except.ok "sometext") (Except.ok []) ⟨[], none⟩).1 =
      Except.ok ⟨"error", some "未能识别期刊名称", some "sometext", none, none, none, none, none⟩ ∧
      ("sometext".data.take 500).length ≤ 500 :=
  C9_amended.2.2 "sometext" [] ⟨[], none⟩ (by rfl)

/-!
## Claims C4 and C5
-/

/-- C4 (confirmed): exact-match precedence — whenever some entry's normalized
name equals the normalized candidate, `get_impact_factor` returns an Exact
match built from the *first* such entry in table order (for any threshold and
hence regardless of any entry's fuzzy similarity, since the fuzzy step is
never reached). -/
theorem C4_exact_precedence (n : String) (df : JTable) (t : ℚ) (i : Nat)
    (hi : i < df.rows.length)
    (hex : (df.rows.getD i default).journal_name_lower = pyStrip (pyLower n))
    (hmin : ∀ k, k < i → (df.rows.getD k default).journal_name_lower ≠ pyStrip (pyLower n)) :
    (get_impact_factor n df t).1 =
      Except.ok (some ⟨(df.rows.getD i default).journal_name,
        (df.rows.getD i default).impact_factor, "exact", none⟩) := by
  have hf : df.rows.find? (fun r => r.journal_name_lower = pyStrip (pyLower n)) =
      some (df.rows.getD i default) :=
    find?_at_first _ _ i hi (by simp only [decide_eq_true_eq]; exact hex)
      (fun k hk => by simp only [decide_eq_false_iff_not]; exact hmin k hk)
  simp only [get_impact_factor, hf]

theorem C4_witness :
    (get_impact_factor "NATURE " ⟨[⟨"Nature", 5, "nature"⟩, ⟨"Naturr", 7, "naturr"⟩], none⟩
      (17 / 20)).1 = Except.ok (some ⟨"Nature", 5, "exact", none⟩) :=
  C4_exact_precedence "NATURE " ⟨[⟨"Nature", 5, "nature"⟩, ⟨"Naturr", 7, "naturr"⟩], none⟩
    (17 / 20) 0 (by decide) (by decide) (fun k hk => absurd hk (by omega))

/-- C5 (confirmed): the fuzzy step — with no exact match and a non-empty table,
the similarity of every entry's normalized name against the normalized
candidate is computed; with `i` the first index attaining the maximum
similarity, the lookup returns a Fuzzy match built from row `i` with the
similarity rounded to 3 decimal places if the maximum is `≥ threshold`
(boundary accepted), and `none` if it is `< threshold`. -/
theorem C5_fuzzy_step (n : String) (df : JTable) (t : ℚ) (i : Nat)
    (hnoex : ∀ r ∈ df.rows, r.journal_name_lower ≠ pyStrip (pyLower n))
    (hi : i < df.rows.length)
    (hmax : ∀ k, k < df.rows.length →
      calculate_similarity (df.rows.getD k default).journal_name_lower (pyStrip (pyLower n)) ≤
        calculate_similarity (df.rows.getD i default).journal_name_lower (pyStrip (pyLower n)))
    (hfirst : ∀ k, k < i →
      calculate_similarity (df.rows.getD k default).journal_name_lower (pyStrip (pyLower n)) <
        calculate_similarity (df.rows.getD i default).journal_name_lower (pyStrip (pyLower n))) :
    (t ≤ calculate_similarity (df.rows.getD i default).journal_name_lower (pyStrip (pyLower n)) →
      (get_impact_factor n df t).1 = Except.ok (some ⟨(df.rows.getD i default).journal_name,
        (df.rows.getD i default).impact_factor, "fuzzy",
        some (round3 (calculate_similarity (df.rows.getD i default).journal_name_lower
          (pyStrip (pyLower n))))⟩)) ∧
    (calculate_similarity (df.rows.getD i default).journal_name_lower (pyStrip (pyLower n)) < t →
      (get_impact_factor n df t).1 = Except.ok none) := by
  have hf : df.rows.find? (fun r => r.journal_name_lower = pyStrip (pyLower n)) = none := by
    rw [List.find?_eq_none]
    intro x hx
    simpa using hnoex x hx
  have hgdi : (df.rows.map
      (fun r => calculate_similarity r.journal_name_lower (pyStrip (pyLower n)))).getD i 0 =
      calculate_similarity (df.rows.getD i default).journal_name_lower (pyStrip (pyLower n)) :=
    getD_map_rows _ _ i hi
  have ha : argmaxIdx (df.rows.map
      (fun r => calculate_similarity r.journal_name_lower (pyStrip (pyLower n)))) = some i := by
    refine argmaxIdx_first _ i (by simpa using hi) (fun k hk => ?_) (fun k hk => ?_)
    · rw [hgdi, getD_map_rows _ _ k (by simpa using hk)]
      exact hmax k (by simpa using hk)
    · rw [hgdi, getD_map_rows _ _ k (by omega)]
      exact hfirst k hk
  constructor
  · intro ht
    simp only [get_impact_factor, hf, ha]
    rw [hgdi, if_pos ht]
  · intro ht
    simp only [get_impact_factor, hf, ha]
    rw [hgdi, if_neg (not_le.mpr ht)]

theorem C5_witness :
    (get_impact_factor "naturr" ⟨[⟨"Nature", 5, "nature"⟩], none⟩ (17 / 20)).1 =
      Except.ok none := by
  refine (C5_fuzzy_step "naturr" ⟨[⟨"Nature", 5, "nature"⟩], none⟩ (17 / 20) 0 ?_ (by decide)
    ?_ (fun k hk => absurd hk (by omega))).2 ?_
  · intro r hr
    rw [List.mem_singleton] at hr
    subst hr
    decide
  · intro k hk
    have hk0 : k = 0 := by simpa using hk
    subst hk0
    exact le_refl _
  · show calculate_similarity "nature" "naturr" < 17 / 20
    have hm : matchSum (pyLower "nature").data (pyLower "naturr").data
        ((pyLower "nature").data.length + (pyLower "naturr").data.length + 1) 0
        (pyLower "nature").data.length 0 (pyLower "naturr").data.length = 5 := by decide
    have hl1 : ((pyLower "nature").data.length : ℚ) = 6 := by norm_num [show (pyLower "nature").data.length = 6 by decide]
    have hl2 : ((pyLower "naturr").data.length : ℚ) = 6 := by norm_num [show (pyLower "naturr").data.length = 6 by decide]
    have hz : ¬((pyLower "nature").data.length + (pyLower "naturr").data.length = 0) := by decide
    simp only [calculate_similarity, ratioOf, hm]
    rw [if_neg hz, hl1, hl2]
    norm_num

/-!
## Claim C10: non-emptiness of extracted names
-/

theorem pyStripL_eq_nil_iff (l : List Char) :
    pyStripL l = [] ↔ ∀ c ∈ l, isPySpace c = true := by
  unfold pyStripL
  rw [List.reverse_eq_nil_iff, List.dropWhile_eq_nil_iff]
  constructor
  · intro h c hc
    rcases List.mem_append.mp
        ((List.takeWhile_append_dropWhile isPySpace l) ▸ hc) with h1 | h1
    · exact List.mem_takeWhile_imp h1
    · exact h c (List.mem_reverse.mpr h1)
  · intro h c hc
    exact h c ((List.dropWhile_sublist _).mem (List.mem_reverse.mp hc))

theorem dropWhile_head_false (p : Char → Bool) (l : List Char) (c : Char) (t : List Char)
    (h : l.dropWhile p = c :: t) : p c = false := by
  induction l with
  | nil => simp at h
  | cons x xs ih =>
      rw [List.dropWhile_cons] at h
      split at h
      · exact ih h
      · rename_i hx
        cases h
        simpa using hx

theorem pyStripL_head (l : List Char) (c : Char) (t : List Char)
    (h : pyStripL l = c :: t) : isPySpace c = false := by
  unfold pyStripL at h
  have hY : ((l.dropWhile isPySpace).reverse.dropWhile isPySpace).getLast? = some c := by
    rw [← List.head?_reverse, h]; rfl
  have hsuf := List.dropWhile_suffix (l := (l.dropWhile isPySpace).reverse) isPySpace
  obtain ⟨pre, hpre⟩ := hsuf
  have hne : (l.dropWhile isPySpace).reverse.dropWhile isPySpace ≠ [] := by
    intro hnil; rw [hnil] at hY; simp at hY
  have hY2 : ((l.dropWhile isPySpace).reverse).getLast? = some c := by
    rw [← hpre, List.getLast?_append_of_ne_nil pre hne]
    exact hY
  rw [List.getLast?_reverse] at hY2
  cases hX : l.dropWhile isPySpace with
  | nil => rw [hX] at hY2; simp at hY2
  | cons x xs =>
      rw [hX] at hY2
      simp only [List.head?_cons, Option.some.injEq] at hY2
      subst hY2
      exact dropWhile_head_false isPySpace l x xs hX

theorem pyStrip_ne_empty (l : List Char) (c : Char) (hc : c ∈ l) (hns : isPySpace c = false) :
    pyStripL l ≠ [] := by
  intro h
  rw [pyStripL_eq_nil_iff] at h
  rw [h c hc] at hns
  exact Bool.noConfusion hns

theorem space_not_upper (c : Char) (h : isPySpace c = true) : isUpperC c = false := by
  simp only [isPySpace, Bool.or_eq_true, decide_eq_true_eq] at h
  rcases h with ((((h | h) | h) | h) | h) | h <;> subst h <;> decide

theorem isUpperC_not_space (c : Char) (h : isUpperC c = true) : isPySpace c = false := by
  cases hsp : isPySpace c with
  | false => rfl
  | true => rw [space_not_upper c hsp] at h; exact Bool.noConfusion h

theorem lazyGroup_head (term : List Char → Bool) (l g : List Char)
    (h : lazyGroup term l = some g) : ∃ c r, g = c :: r ∧ isUpperC c = true := by
  cases l with
  | nil => simp [lazyGroup] at h
  | cons c rest =>
      unfold lazyGroup at h
      dsimp only at h
      split at h
      · obtain ⟨n0, _, hn0⟩ := List.exists_of_findSome?_eq_some h
        split at hn0
        · exact ⟨c, rest.take (n0 + 1), (Option.some.inj hn0).symm, by assumption⟩
        · exact absurd hn0 (by simp)
      · exact absurd h (by simp)

theorem pat1Core_head (l g : List Char) (h : pat1Core l = some g) :
    ∃ c r, g = c :: r ∧ isUpperC c = true :=
  lazyGroup_head _ _ _ h

theorem pat1At_head (l g : List Char) (h : pat1At l = some g) :
    ∃ c r, g = c :: r ∧ isUpperC c = true := by
  unfold pat1At at h
  split at h
  · split at h
    · split at h
      · rename_i g' hg'
        cases h
        exact pat1Core_head _ _ hg'
      · exact pat1Core_head _ _ h
    · exact pat1Core_head _ _ h
  · exact absurd h (by simp)

theorem pat2At_head (l g : List Char) (h : pat2At l = some g) :
    ∃ c r, g = c :: r ∧ isUpperC c = true :=
  lazyGroup_head _ _ _ h

theorem pat3At_head (l g : List Char) (h : pat3At l = some g) :
    ∃ c r, g = c :: r ∧ isUpperC c = true := by
  unfold pat3At at h
  split at h
  · split at h
    · split at h
      · rename_i c1 tail1 heq1 hc1
        dsimp only at h
        split at h
        · exact absurd h (by simp)
        · exact ⟨c1, tail1.takeWhile isCls1, (Option.some.inj h).symm, hc1⟩
      · exact absurd h (by simp)
    · exact absurd h (by simp)
  · exact absurd h (by simp)

theorem pat4At_head (l g : List Char) (h : pat4At l = some g) :
    ∃ c r, g = c :: r ∧ isUpperC c = true := by
  cases l with
  | nil => simp [pat4At] at h
  | cons c0 rest =>
      unfold pat4At at h
      dsimp only at h
      split at h
      · obtain ⟨m, _, hm⟩ := List.exists_of_findSome?_eq_some h
        split at hm <;> split at hm <;>
          first
          | exact absurd hm (by simp)
          | exact lazyGroup_head _ _ _ hm
      · exact absurd h (by simp)

theorem reSearch_head (patAt : List Char → Option (List Char)) (s : String) (g : String)
    (hpat : ∀ l gl, patAt l = some gl → ∃ c r, gl = c :: r ∧ isUpperC c = true)
    (h : reSearch patAt s = some g) : ∃ c r, g.data = c :: r ∧ isUpperC c = true := by
  unfold reSearch at h
  obtain ⟨v, hv, hg⟩ := Option.map_eq_some'.mp h
  obtain ⟨p, _, hp⟩ := List.exists_of_findSome?_eq_some hv
  obtain ⟨c, r, hcr, hc⟩ := hpat _ _ hp
  exact ⟨c, r, by rw [← hg, hcr], hc⟩

theorem patternPath_ne_empty (t s : String) (h : patternPath t = some s) : s.data ≠ [] := by
  unfold patternPath at h
  dsimp only at h
  have grab : ∀ (g : String), (∃ c r, g.data = c :: r ∧ isUpperC c = true) →
      some (pyStrip g) = some s → s.data ≠ [] := by
    rintro g ⟨c, r, hcr, hc⟩ heq
    have hs : s = pyStrip g := (Option.some.inj heq).symm
    rw [hs]
    show pyStripL g.data ≠ []
    exact pyStrip_ne_empty g.data c (by rw [hcr]; exact List.mem_cons_self c r)
      (isUpperC_not_space c hc)
  split at h
  · exact grab _ (reSearch_head pat1At _ _ pat1At_head (by assumption)) h
  · split at h
    · exact grab _ (reSearch_head pat2At _ _ pat2At_head (by assumption)) h
    · split at h
      · exact grab _ (reSearch_head pat3At _ _ pat3At_head (by assumption)) h
      · split at h
        · exact grab _ (reSearch_head pat4At _ _ pat4At_head (by assumption)) h
        · exact absurd h (by simp)

theorem data_ne_nil_imp (s : String) (h : s.data ≠ []) : s ≠ "" := by
  intro hs
  rw [hs] at h
  exact h rfl

theorem alpha_word (c : Char) (h : isPyAlpha c = true) : isWordC c = true := by
  simp [isWordC, h]

theorem stripLead_ne_nil (l : List Char) (h : l.any isPyAlpha = true) :
    l.dropWhile (fun c => !(isWordC c || isPySpace c)) ≠ [] := by
  intro hnil
  rw [List.dropWhile_eq_nil_iff] at hnil
  obtain ⟨c, hc, hca⟩ := List.any_eq_true.mp h
  have h2 := hnil c hc
  rw [alpha_word c hca] at h2
  simp at h2

theorem subjectRest_ne_empty (subject s : String)
    (hhead : ∀ c t, subject.data = c :: t → isPySpace c = false)
    (h : subjectRest subject = some s) : s ≠ "" := by
  unfold subjectRest at h
  split at h
  · rename_i hcond
    have hne : (pyStrip (beforeDoi subject)).isEmpty = false := by
      rcases Bool.and_eq_true _ _ |>.mp hcond with ⟨_, h2⟩
      simpa using h2
    rw [← Option.some.inj h]
    intro hs
    rw [hs] at hne
    exact Bool.noConfusion hne
  · split at h
    · rename_i g hg
      have hs : s = pyStrip g := (Option.some.inj h).symm
      unfold yearRule at hg
      obtain ⟨gn, hhd, hgn⟩ := Option.map_eq_some'.mp hg
      have hmem : gn ∈ (List.range' 1 subject.data.length).filter
          (fun g => (subject.data.take g).all (· ≠ '\n') && yearAfterWs (subject.data.drop g)) :=
        List.mem_of_mem_head? (by rw [hhd]; rfl)
      have hr := (List.mem_filter.mp hmem).1
      have hgn1 : 1 ≤ gn := (List.mem_range'_1.mp hr).1
      rw [hs, ← hgn]
      apply data_ne_nil_imp
      show pyStripL (subject.data.take gn) ≠ []
      cases hdata : subject.data with
      | nil =>
          rw [hdata] at hr
          simp at hr
      | cons c t =>
          have hc := hhead c t hdata
          apply pyStrip_ne_empty _ c _ hc
          cases gn with
          | zero => exact absurd hgn1 (by omega)
          | succ n =>
              rw [List.take_succ_cons]
              exact List.mem_cons_self c _
    · dsimp only at h
      split at h
      · rename_i hcond
        have hne : (pyStrip (stripTrailNoise subject)).isEmpty = false := by
          rcases Bool.and_eq_true _ _ |>.mp hcond with ⟨h1, _⟩
          simpa using h1
        rw [← Option.some.inj h]
        intro hs
        rw [hs] at hne
        exact Bool.noConfusion hne
      · exact absurd h (by simp)

theorem ejs_ne_empty (subject s : String)
    (h : extract_journal_from_subject subject = some s) : s ≠ "" := by
  unfold extract_journal_from_subject at h
  split at h
  · exact absurd h (by simp)
  · dsimp only at h
    split at h
    · rename_i hcond
      have hany : (pyStrip (beforeComma (pyStrip subject))).data.any isPyAlpha = true :=
        (Bool.and_eq_true _ _ |>.mp hcond).2
      rw [← Option.some.inj h]
      apply data_ne_nil_imp
      show ((pyStrip (beforeComma (pyStrip subject))).data.dropWhile
        (fun c => !(isWordC c || isPySpace c))) ≠ []
      exact stripLead_ne_nil _ hany
    · refine subjectRest_ne_empty (pyStrip subject) s (fun c t hct => ?_) h
      exact pyStripL_head subject.data c t hct

/-- C10 (confirmed): the extractor never produces an empty name — every
`some`-result of `extract_journal_name` and every `some`-result of
`extract_journal_from_subject` is a non-empty string. -/
theorem C10_nonempty :
    (∀ text metadata s, extract_journal_name text metadata = some s → s ≠ "") ∧
    (∀ subject s, extract_journal_from_subject subject = some s → s ≠ "") := by
  refine ⟨?_, ejs_ne_empty⟩
  intro text metadata s h
  unfold extract_journal_name at h
  split at h
  · split at h
    · exact data_ne_nil_imp s (patternPath_ne_empty text s h)
    · split at h
      · split at h
        · exact data_ne_nil_imp s (patternPath_ne_empty text s h)
        · rename_i jn _ hjn
          rw [← Option.some.inj h]
          apply data_ne_nil_imp
          intro hnil
          rw [hnil] at hjn
          simp at hjn
      · exact data_ne_nil_imp s (patternPath_ne_empty text s h)
  · exact data_ne_nil_imp s (patternPath_ne_empty text s h)

theorem C10_witness :
    ("Nature" : String) ≠ "" ∧ ("Science" : String) ≠ "" :=
  ⟨C10_nonempty.1 "" [("/Subject", "Nature, 2023")] "Nature" (by rfl),
   C10_nonempty.2 "Science doi:10.1126/xxx" "Science" (by rfl)⟩

/-!
## Claim C8: batch isolation
-/

theorem process_pdf_rows (a : Except String String)
    (b : Except String (List (String × String))) (t : JTable) :
    ((process_pdf a b t).2).rows = t.rows := by
  unfold process_pdf
  cases a with
  | error e => rfl
  | ok text =>
    cases b with
    | error e => rfl
    | ok md =>
      dsimp only
      cases hE : extract_journal_name text md with
      | none => rfl
      | some jn =>
        dsimp only
        split
        · rfl
        · rcases hp : get_impact_factor jn t (17 / 20) with ⟨r, d⟩
          have hd : d.rows = t.rows := by
            have h2 := gif_rows_eq jn t (17 / 20)
            rw [hp] at h2
            exact h2
          cases r with
          | error e => exact hd
          | ok v => cases v with
            | none => exact hd
            | some info => exact hd

theorem process_pdf_fst_rows_only (a : Except String String)
    (b : Except String (List (String × String))) (t1 t2 : JTable) (h : t1.rows = t2.rows) :
    (process_pdf a b t1).1 = (process_pdf a b t2).1 := by
  unfold process_pdf
  cases a with
  | error e => rfl
  | ok text =>
    cases b with
    | error e => rfl
    | ok md =>
      dsimp only
      cases hE : extract_journal_name text md with
      | none => rfl
      | some jn =>
        dsimp only
        split
        · rfl
        · have hgif := gif_fst_rows_only jn t1 t2 (17 / 20) h
          rcases hp1 : get_impact_factor jn t1 (17 / 20) with ⟨r1, d1⟩
          rcases hp2 : get_impact_factor jn t2 (17 / 20) with ⟨r2, d2⟩
          rw [hp1, hp2] at hgif
          dsimp only at hgif
          subst hgif
          cases r1 with
          | error e => rfl
          | ok v => cases v with
            | none => rfl
            | some info => rfl

theorem process_pdf_ok (a : Except String String)
    (b : Except String (List (String × String))) (t : JTable) (h : t.rows ≠ []) :
    ∃ r, (process_pdf a b t).1 = Except.ok r := by
  unfold process_pdf
  cases a with
  | error e => exact ⟨_, rfl⟩
  | ok text =>
    cases b with
    | error e => exact ⟨_, rfl⟩
    | ok md =>
      dsimp only
      cases hE : extract_journal_name text md with
      | none => exact ⟨_, rfl⟩
      | some jn =>
        dsimp only
        split
        · exact ⟨_, rfl⟩
        · obtain ⟨r, hr⟩ := gif_ok jn t (17 / 20) h
          rcases hp : get_impact_factor jn t (17 / 20) with ⟨r1, d1⟩
          rw [hp] at hr
          dsimp only at hr
          subst hr
          cases r with
          | none => exact ⟨_, rfl⟩
          | some info => exact ⟨_, rfl⟩

theorem process_pdf_read_error (e : String)
    (b : Except String (List (String × String))) (t : JTable) :
    (process_pdf (Except.error e) b t).1 =
      Except.ok ⟨"error", some ("读取PDF失败: " ++ e), none, none, none, none, none, none⟩ := rfl

theorem batch_go (docs : List ReadPair) (rs0 : List PdfOutcome) (t0 df : JTable)
    (hrows : t0.rows = df.rows) (h : df.rows ≠ []) :
    ∃ t : JTable,
      docs.foldl
        (fun acc d =>
          match acc with
          | Except.error e => Except.error e
          | Except.ok (rs, t) =>
            match process_pdf d.1 d.2 t with
            | (Except.error e, _) => Except.error e
            | (Except.ok r, t') => Except.ok (rs ++ [r], t'))
        (Except.ok (rs0, t0)) =
        Except.ok (rs0 ++ docs.map (fun d => outcomeOf d df), t) ∧ t.rows = df.rows := by
  induction docs generalizing rs0 t0 with
  | nil => exact ⟨t0, by simp, hrows⟩
  | cons d ds ih =>
      obtain ⟨r, hr⟩ := process_pdf_ok d.1 d.2 t0 (by rw [hrows]; exact h)
      have hfst : (process_pdf d.1 d.2 t0).1 = (process_pdf d.1 d.2 df).1 :=
        process_pdf_fst_rows_only d.1 d.2 t0 df hrows
      have hout : outcomeOf d df = r := by
        unfold outcomeOf
        rw [← hfst, hr]
      rcases hp : process_pdf d.1 d.2 t0 with ⟨r1, t1⟩
      rw [hp] at hr hfst
      dsimp only at hr
      subst hr
      have ht1 : t1.rows = df.rows := by
        have h2 := process_pdf_rows d.1 d.2 t0
        rw [hp] at h2
        dsimp only at h2
        rw [h2, hrows]
      obtain ⟨t, hfold, htr⟩ := ih (rs0 ++ [r]) t1 ht1
      refine ⟨t, ?_, htr⟩
      rw [List.foldl_cons]
      dsimp only
      rw [hp]
      dsimp only
      rw [hfold]
      simp [hout]

/-- C8 (corrected): provided the loaded reference table is non-empty, read
failures are isolated per document — the batch loop returns one outcome per
document in input order, a document whose read raises is recorded with status
`error`, and every other document's outcome is exactly its own `process_pdf`
result against the shared table.  (With an empty table the claim fails: a later
document that extracts a name makes the resolver raise, aborting the batch.) -/
theorem C8_amended (docs : List ReadPair) (df : JTable) (h : df.rows ≠ []) :
    ∃ (rs : List PdfOutcome) (t : JTable),
      batch_process_pdfs docs df = Except.ok (rs, t) ∧
      rs.length = docs.length ∧
      (∀ i (hi : i < docs.length) (hr : i < rs.length),
        Except.ok (rs.get ⟨i, hr⟩) =
          (process_pdf (docs.get ⟨i, hi⟩).1 (docs.get ⟨i, hi⟩).2 df).1) ∧
      (∀ i (hi : i < docs.length) (hr : i < rs.length) (e : String),
        (docs.get ⟨i, hi⟩).1 = Except.error e → (rs.get ⟨i, hr⟩).status = "error") := by
  obtain ⟨t, hfold, htr⟩ := batch_go docs [] df df rfl h
  refine ⟨docs.map (fun d => outcomeOf d df), t, by simpa [batch_process_pdfs] using hfold,
    by simp, ?_, ?_⟩
  · intro i hi hr
    have hget : (docs.map (fun d => outcomeOf d df)).get ⟨i, hr⟩ =
        outcomeOf (docs.get ⟨i, hi⟩) df := by
      simp
    rw [hget]
    obtain ⟨r, hrr⟩ := process_pdf_ok (docs.get ⟨i, hi⟩).1 (docs.get ⟨i, hi⟩).2 df h
    rw [hrr]
    unfold outcomeOf
    rw [hrr]
  · intro i hi hr e he
    have hget : (docs.map (fun d => outcomeOf d df)).get ⟨i, hr⟩ =
        outcomeOf (docs.get ⟨i, hi⟩) df := by
      simp
    rw [hget]
    unfold outcomeOf
    rw [he, process_pdf_read_error]

theorem C8_witness :
    ∃ (rs : List PdfOutcome) (t : JTable),
      batch_process_pdfs ([(Except.error "io error", Except.ok []),
          (Except.ok "", Except.ok [("/Subject", "Naturr, 2023")])] : List ReadPair)
        ⟨[⟨"Nature", 5, "nature"⟩], none⟩ = Except.ok (rs, t) ∧
      rs.length = ([(Except.error "io error", Except.ok []),
          (Except.ok "", Except.ok [("/Subject", "Naturr, 2023")])] : List ReadPair).length ∧
      (∀ i (hi : i < ([(Except.error "io error", Except.ok []),
          (Except.ok "", Except.ok [("/Subject", "Naturr, 2023")])] : List ReadPair).length)
          (hr : i < rs.length),
        Except.ok (rs.get ⟨i, hr⟩) =
          (process_pdf (([(Except.error "io error", Except.ok []),
              (Except.ok "", Except.ok [("/Subject", "Naturr, 2023")])] :
                List ReadPair).get ⟨i, hi⟩).1
            (([(Except.error "io error", Except.ok []),
              (Except.ok "", Except.ok [("/Subject", "Naturr, 2023")])] :
                List ReadPair).get ⟨i, hi⟩).2
            ⟨[⟨"Nature", 5, "nature"⟩], none⟩).1) ∧
      (∀ i (hi : i < ([(Except.error "io error", Except.ok []),
          (Except.ok "", Except.ok [("/Subject", "Naturr, 2023")])] : List ReadPair).length)
          (hr : i < rs.length) (e : String),
        (([(Except.error "io error", Except.ok []),
          (Except.ok "", Except.ok [("/Subject", "Naturr, 2023")])] :
            List ReadPair).get ⟨i, hi⟩).1 = Except.error e →
          (rs.get ⟨i, hr⟩).status = "error") :=
  C8_amended ([(Except.error "io error", Except.ok []),
    (Except.ok "", Except.ok [("/Subject", "Naturr, 2023")])] : List ReadPair)
    ⟨[⟨"Nature", 5, "nature"⟩], none⟩ (by decide)

/-- C8, counterexample: with an *empty* reference table, a batch whose first
document has a read error and whose second document extracts a journal name is
aborted by the resolver's `idxmax` exception — the second document is never
recorded, so the batch report does not contain one outcome per document. -/
theorem C8_counterexample :
    batch_process_pdfs [(Except.error "io error", Except.ok []),
        (Except.ok "", Except.ok [("/Subject", "Nature, 2023")])] ⟨[], none⟩ =
      Except.error "attempt to get argmax of an empty sequence" := by
  rfl

/-!
## Claim C6: properties of the similarity scorer
-/

theorem calcsim_concrete (s1 s2 : String) (m l1 l2 : Nat)
    (hm : matchSum (pyLower s1).data (pyLower s2).data
      ((pyLower s1).data.length + (pyLower s2).data.length + 1) 0
      (pyLower s1).data.length 0 (pyLower s2).data.length = m)
    (h1 : (pyLower s1).data.length = l1) (h2 : (pyLower s2).data.length = l2)
    (hnz : ¬(l1 + l2 = 0)) :
    calculate_similarity s1 s2 = (2 * m : ℚ) / ((l1 : ℚ) + l2) := by
  simp only [calculate_similarity, ratioOf]
  rw [hm, h1, h2, if_neg hnz]

/-- C6, counterexample: the similarity scorer is not symmetric — swapping the
arguments of `calculate_similarity` changes the result on `"xycqab"` vs
`"abxyzc"` (`1/2` one way, `1/3` the other), because `find_longest_match`
breaks ties between equally long blocks by position in its first argument. -/
theorem C6_counterexample :
    calculate_similarity "xycqab" "abxyzc" ≠ calculate_similarity "abxyzc" "xycqab" := by
  have e1 : calculate_similarity "xycqab" "abxyzc" = (2 * 3 : ℚ) / ((6 : ℚ) + 6) :=
    calcsim_concrete "xycqab" "abxyzc" 3 6 6 (by decide) (by decide) (by decide) (by decide)
  have e2 : calculate_similarity "abxyzc" "xycqab" = (2 * 2 : ℚ) / ((6 : ℚ) + 6) :=
    calcsim_concrete "abxyzc" "xycqab" 2 6 6 (by decide) (by decide) (by decide) (by decide)
  rw [e1, e2]
  norm_num

theorem flmInner_win (j2p : Nat → Nat) (i alo ahi blo bhi : Nat)
    (hi1 : alo ≤ i) (hi2 : i < ahi)
    (hj2p : J2Win alo blo bhi i j2p) :
    ∀ (js : List Nat) (nj : Nat → Nat) (st : FlmSt),
      (∀ j ∈ js, blo ≤ j ∧ j < bhi) →
      J2Win alo blo bhi (i + 1) nj →
      StWin alo ahi blo bhi st →
      J2Win alo blo bhi (i + 1) (flmInner j2p i js nj st).1 ∧
        StWin alo ahi blo bhi (flmInner j2p i js nj st).2 := by
  intro js
  induction js with
  | nil => intro nj st _ hnj hst; exact ⟨hnj, hst⟩
  | cons j rest ih =>
      intro nj st hjs hnj hst
      have hjw := hjs j (List.mem_cons_self j rest)
      have hk0 : 1 ≤ flmK j2p j := by
        unfold flmK; omega
      have hk1 : flmK j2p j ≤ i + 1 - alo := by
        unfold flmK
        split
        · omega
        · have h2 := (hj2p (j - 1)).1
          omega
      have hk2 : flmK j2p j ≤ j + 1 - blo := by
        unfold flmK
        split
        · omega
        · by_cases hz : j2p (j - 1) = 0
          · rw [hz]; omega
          · have h2 := (hj2p (j - 1)).2 hz
            omega
      simp only [flmInner]
      apply ih
      · exact fun j' hj' => hjs j' (List.mem_cons_of_mem j hj')
      · intro j'
        by_cases hjj : j' = j
        · subst hjj
          constructor
          · simp only [if_pos rfl]; exact hk1
          · intro _
            simp only [if_pos rfl]
            exact ⟨hjw.1, hjw.2, hk2⟩
        · simp only [if_neg hjj]
          exact hnj j'
      · split
        · rename_i hlt
          unfold StWin
          dsimp only
          exact ⟨by omega, by omega, by omega, by omega⟩
        · exact hst

theorem flmRows_win (a b : List Char) (alo ahi blo bhi : Nat) :
    ∀ (n r : Nat) (j2p : Nat → Nat) (st : FlmSt),
      alo ≤ r → r + n ≤ ahi →
      J2Win alo blo bhi r j2p →
      StWin alo ahi blo bhi st →
      StWin alo ahi blo bhi (flmRows a b blo bhi (List.range' r n) j2p st) := by
  intro n
  induction n with
  | zero => intro r j2p st _ _ _ hst; exact hst
  | succ n ih =>
      intro r j2p st hr hrn hj2p hst
      show StWin alo ahi blo bhi (flmRows a b blo bhi (r :: List.range' (r + 1) n) j2p st)
      simp only [flmRows]
      have hjs : ∀ j ∈ (b2jList b (a.getD r ' ')).filter (fun j => blo ≤ j && j < bhi),
          blo ≤ j ∧ j < bhi := by
        intro j hj
        have h2 := (List.mem_filter.mp hj).2
        simp only [Bool.and_eq_true, decide_eq_true_eq] at h2
        exact h2
      have hnj0 : J2Win alo blo bhi (r + 1) (fun _ => 0) := by
        intro j
        exact ⟨Nat.zero_le _, fun h0 => absurd rfl h0⟩
      have hj2p' : J2Win alo blo bhi r j2p := hj2p
      obtain ⟨hnj, hst'⟩ := flmInner_win j2p r alo ahi blo bhi hr (by omega) hj2p'
        ((b2jList b (a.getD r ' ')).filter (fun j => blo ≤ j && j < bhi)) (fun _ => 0) st
        hjs hnj0 hst
      exact ih (r + 1) _ _ (by omega) (by omega) hnj hst'

theorem extLeft_win (a b : List Char) (alo ahi blo bhi : Nat) :
    ∀ (fuel : Nat) (st : FlmSt), StWin alo ahi blo bhi st →
      StWin alo ahi blo bhi (extLeft a b alo blo fuel st) := by
  intro fuel
  induction fuel with
  | zero => intro st h; exact h
  | succ fuel ih =>
      intro st h
      simp only [extLeft]
      split
      · rename_i hcond
        simp only [Bool.and_eq_true, decide_eq_true_eq] at hcond
        refine ih _ ?_
        unfold StWin at h ⊢
        dsimp only
        exact ⟨by omega, by omega, by omega, by omega⟩
      · exact h

theorem extRight_win (a b : List Char) (alo ahi blo bhi : Nat) :
    ∀ (fuel : Nat) (st : FlmSt), StWin alo ahi blo bhi st →
      StWin alo ahi blo bhi (extRight a b ahi bhi fuel st) := by
  intro fuel
  induction fuel with
  | zero => intro st h; exact h
  | succ fuel ih =>
      intro st h
      simp only [extRight]
      split
      · rename_i hcond
        simp only [Bool.and_eq_true, decide_eq_true_eq] at hcond
        refine ih _ ?_
        unfold StWin at h ⊢
        dsimp only
        exact ⟨by omega, by omega, by omega, by omega⟩
      · exact h

theorem flm_win (a b : List Char) (alo ahi blo bhi : Nat) (h1 : alo ≤ ahi) (h2 : blo ≤ bhi) :
    StWin alo ahi blo bhi (findLongestMatch a b alo ahi blo bhi) := by
  unfold findLongestMatch
  apply extRight_win
  apply extLeft_win
  apply flmRows_win a b alo ahi blo bhi (ahi - alo) alo _ _ (le_refl alo) (by omega)
  · intro j; exact ⟨Nat.zero_le _, fun h0 => absurd rfl h0⟩
  · unfold StWin
    dsimp only
    exact ⟨le_refl alo, le_refl blo, by omega, by omega⟩

theorem matchSum_le (a b : List Char) :
    ∀ (fuel alo ahi blo bhi : Nat), alo ≤ ahi → blo ≤ bhi →
      matchSum a b fuel alo ahi blo bhi ≤ ahi - alo ∧
        matchSum a b fuel alo ahi blo bhi ≤ bhi - blo := by
  intro fuel
  induction fuel with
  | zero => intro alo ahi blo bhi _ _; exact ⟨Nat.zero_le _, Nat.zero_le _⟩
  | succ fuel ih =>
      intro alo ahi blo bhi h1 h2
      have hw := flm_win a b alo ahi blo bhi h1 h2
      obtain ⟨w1, w2, w3, w4⟩ := hw
      simp only [matchSum]
      split
      · exact ⟨Nat.zero_le _, Nat.zero_le _⟩
      · have hleft := ih alo (findLongestMatch a b alo ahi blo bhi).besti blo
          (findLongestMatch a b alo ahi blo bhi).bestj w1 w2
        have hright := ih ((findLongestMatch a b alo ahi blo bhi).besti +
            (findLongestMatch a b alo ahi blo bhi).bestsize) ahi
          ((findLongestMatch a b alo ahi blo bhi).bestj +
            (findLongestMatch a b alo ahi blo bhi).bestsize) bhi w3 w4
        constructor
        · omega
        · omega

theorem ratio_range (a b : List Char) : 0 ≤ ratioOf a b ∧ ratioOf a b ≤ 1 := by
  have hm := matchSum_le a b (a.length + b.length + 1) 0 a.length 0 b.length
    (Nat.zero_le _) (Nat.zero_le _)
  unfold ratioOf
  split
  · norm_num
  · rename_i hne
    have hpos : (0 : ℚ) < (a.length : ℚ) + b.length := by
      have h1 : 0 < a.length + b.length := Nat.pos_of_ne_zero hne
      exact_mod_cast h1
    constructor
    · positivity
    · rw [div_le_one hpos]
      have h2 : 2 * matchSum a b (a.length + b.length + 1) 0 a.length 0 b.length ≤
          a.length + b.length := by omega
      exact_mod_cast h2

theorem occList_mem (b : List Char) (c : Char) (j : Nat) :
    j ∈ occList b c ↔ j < b.length ∧ b.getD j ' ' = c := by
  unfold occList
  rw [List.mem_filter, List.mem_range]
  simp only [decide_eq_true_eq]

theorem b2jList_mem (b : List Char) (c : Char) (j : Nat) (h : j ∈ b2jList b c) :
    isPopular b c = false ∧ j < b.length ∧ b.getD j ' ' = c := by
  unfold b2jList at h
  split at h
  · exact absurd h (by simp)
  · rename_i hpop
    have h2 := (occList_mem b c j).mp h
    exact ⟨Bool.eq_false_iff.mpr hpop, h2⟩

theorem b2jList_diag (s : List Char) (i : Nat) (c : Char) (j : Nat)
    (h : j ∈ b2jList s c) (hchar : s.getD i ' ' = c) (hlen : i < s.length) :
    i ∈ b2jList s c := by
  obtain ⟨hpop, _, _⟩ := b2jList_mem s c j h
  unfold b2jList
  rw [if_neg (by rw [hpop]; exact Bool.noConfusion)]
  exact (occList_mem s c i).mpr ⟨hlen, hchar⟩

theorem chain_zero_of_not_guard (s : List Char) (lo hi i j : Nat)
    (h : ¬(lo ≤ j ∧ j < hi ∧ j ∈ b2jList s (s.getD i ' '))) :
    chain s lo hi i j = 0 := by
  rw [chain, if_neg h]

theorem chain_of_guard (s : List Char) (lo hi i j : Nat)
    (h : lo ≤ j ∧ j < hi ∧ j ∈ b2jList s (s.getD i ' ')) :
    chain s lo hi i j =
      (if _h' : lo < i ∧ 0 < j then chain s lo hi (i - 1) (j - 1) else 0) + 1 := by
  rw [chain, if_pos h]

theorem guard_of_chain_pos (s : List Char) (lo hi i j : Nat)
    (h : chain s lo hi i j ≠ 0) :
    lo ≤ j ∧ j < hi ∧ j ∈ b2jList s (s.getD i ' ') := by
  by_contra hg
  exact h (chain_zero_of_not_guard s lo hi i j hg)

theorem guard_diag (s : List Char) (lo hi i j : Nat)
    (hg : lo ≤ j ∧ j < hi ∧ j ∈ b2jList s (s.getD i ' '))
    (hloi : lo ≤ i) (hihi : i < hi) (hlen : hi ≤ s.length) :
    lo ≤ min i j ∧ min i j < hi ∧
      min i j ∈ b2jList s (s.getD (min i j) ' ') := by
  obtain ⟨hj1, hj2, hj3⟩ := hg
  obtain ⟨hpop, hjlen, hjchar⟩ := b2jList_mem s (s.getD i ' ') j hj3
  rcases Nat.le_total i j with hij | hij
  · have hm : min i j = i := Nat.min_eq_left hij
    rw [hm]
    exact ⟨hloi, hihi, b2jList_diag s i (s.getD i ' ') j hj3 rfl (by omega)⟩
  · have hm : min i j = j := Nat.min_eq_right hij
    rw [hm]
    refine ⟨hj1, hj2, ?_⟩
    rw [hjchar]
    exact hj3

theorem chain_le_diag (s : List Char) (lo hi : Nat) (hlen : hi ≤ s.length) :
    ∀ (i j : Nat), lo ≤ i → i < hi →
      chain s lo hi i j ≤ chain s lo hi (min i j) (min i j) := by
  intro i
  induction i with
  | zero =>
      intro j hlo hhi
      by_cases hg : lo ≤ j ∧ j < hi ∧ j ∈ b2jList s (s.getD 0 ' ')
      · have hgd := guard_diag s lo hi 0 j hg hlo hhi hlen
        rw [Nat.zero_min] at hgd
        rw [Nat.zero_min, chain_of_guard s lo hi 0 j hg, chain_of_guard s lo hi 0 0 hgd,
          dif_neg (by omega : ¬(lo < 0 ∧ 0 < j)), dif_neg (by omega : ¬(lo < 0 ∧ 0 < 0))]
      · rw [chain_zero_of_not_guard s lo hi 0 j hg]
        exact Nat.zero_le _
  | succ i' ih =>
      intro j hlo hhi
      by_cases hg : lo ≤ j ∧ j < hi ∧ j ∈ b2jList s (s.getD (i' + 1) ' ')
      · have hgd := guard_diag s lo hi (i' + 1) j hg hlo hhi hlen
        rw [chain_of_guard s lo hi (i' + 1) j hg,
          chain_of_guard s lo hi (min (i' + 1) j) (min (i' + 1) j) hgd]
        by_cases hd : lo < i' + 1 ∧ 0 < j
        · rw [dif_pos hd]
          by_cases hdm : lo < min (i' + 1) j ∧ 0 < min (i' + 1) j
          · rw [dif_pos hdm]
            have hm1 : min (i' + 1) j - 1 = min i' (j - 1) := by omega
            have hih := ih (j - 1) (by omega) (by omega)
            simp only [Nat.add_sub_cancel]
            rw [hm1]
            exact Nat.add_le_add_right hih 1
          · rw [dif_neg hdm]
            have hj1 := hg.1
            have hz : chain s lo hi (i' + 1 - 1) (j - 1) = 0 := by
              apply chain_zero_of_not_guard
              intro hgg
              have h2 := hgg.1
              omega
            rw [hz]
        · rw [dif_neg hd]
          exact Nat.succ_le_succ (Nat.zero_le _)
      · rw [chain_zero_of_not_guard s lo hi (i' + 1) j hg]
        exact Nat.zero_le _

theorem flmK_eq_chain (s : List Char) (lo hi i : Nat) (j2p : Nat → Nat)
    (hj2p : ∀ j', j2p j' = if lo < i then chain s lo hi (i - 1) j' else 0)
    (j : Nat) (hg : lo ≤ j ∧ j < hi ∧ j ∈ b2jList s (s.getD i ' ')) :
    flmK j2p j = chain s lo hi i j := by
  rw [chain_of_guard s lo hi i j hg]
  unfold flmK
  by_cases hj0 : j = 0
  · subst hj0
    rw [if_pos rfl, dif_neg (by omega : ¬(lo < i ∧ 0 < 0))]
  · rw [if_neg hj0, hj2p (j - 1)]
    by_cases hli : lo < i
    · rw [if_pos hli, dif_pos ⟨hli, by omega⟩]
    · rw [if_neg hli, dif_neg (by omega : ¬(lo < i ∧ 0 < j))]

theorem flmInner_sym (s : List Char) (lo hi i : Nat)
    (hlen : hi ≤ s.length) (hlo : lo ≤ i) (hhi : i < hi)
    (j2p : Nat → Nat)
    (hj2p : ∀ j', j2p j' = if lo < i then chain s lo hi (i - 1) j' else 0) :
    ∀ (js : List Nat) (nj : Nat → Nat) (st : FlmSt),
      js.Pairwise (· < ·) →
      (∀ j ∈ js, lo ≤ j ∧ j < hi ∧ j ∈ b2jList s (s.getD i ' ')) →
      (∀ j', (lo ≤ j' ∧ j' < hi ∧ j' ∈ b2jList s (s.getD i ' ')) →
        j' ∈ js ∨ chain s lo hi i j' ≤ st.bestsize) →
      st.besti = st.bestj →
      (∀ i' j', lo ≤ i' → i' < i → chain s lo hi i' j' ≤ st.bestsize) →
      (st.bestsize = 0 → st = ⟨lo, lo, 0⟩) →
      (∀ j', nj j' = if j' ∈ js then 0 else chain s lo hi i j') →
      (∀ j', (flmInner j2p i js nj st).1 j' = chain s lo hi i j') ∧
        (flmInner j2p i js nj st).2.besti = (flmInner j2p i js nj st).2.bestj ∧
        (∀ i' j', lo ≤ i' → i' < i + 1 →
          chain s lo hi i' j' ≤ (flmInner j2p i js nj st).2.bestsize) ∧
        ((flmInner j2p i js nj st).2.bestsize = 0 → (flmInner j2p i js nj st).2 = ⟨lo, lo, 0⟩) := by
  intro js
  induction js with
  | nil =>
      intro nj st _ _ hcov hdiag hprev hzero hnj
      simp only [flmInner]
      refine ⟨?_, hdiag, ?_, hzero⟩
      · intro j'
        rw [hnj j']
        rw [if_neg (by simp)]
      · intro i' j' hli' hi'
        by_cases hii : i' < i
        · exact hprev i' j' hli' hii
        · have : i' = i := by omega
          subst this
          by_cases hg : lo ≤ j' ∧ j' < hi ∧ j' ∈ b2jList s (s.getD i' ' ')
          · rcases hcov j' hg with hmem | hle
            · exact absurd hmem (by simp)
            · exact hle
          · rw [chain_zero_of_not_guard s lo hi i' j' hg]
            exact Nat.zero_le _
  | cons j rest ih =>
      intro nj st hpw hjsG hcov hdiag hprev hzero hnj
      rcases List.pairwise_cons.mp hpw with ⟨hj_lt, hpw'⟩
      have hgj : lo ≤ j ∧ j < hi ∧ j ∈ b2jList s (s.getD i ' ') :=
        hjsG j (List.mem_cons_self j rest)
      have hk : flmK j2p j = chain s lo hi i j := flmK_eq_chain s lo hi i j2p hj2p j hgj
      have hjrest : j ∉ rest := fun hmem => lt_irrefl j (hj_lt j hmem)
      simp only [flmInner]
      apply ih
      · exact hpw'
      · exact fun j' hj' => hjsG j' (List.mem_cons_of_mem j hj')
      · -- coverage for the new state
        intro j' hg'
        rcases hcov j' hg' with hmem | hle
        · rcases List.mem_cons.mp hmem with heq | hmem'
          · subst heq
            right
            split
            · rw [hk]
            · rename_i hnlt
              rw [← hk]
              omega
          · exact Or.inl hmem'
        · right
          split
          · rename_i hlt
            exact le_trans hle (le_of_lt hlt)
          · exact hle
      · -- diagonality of the new state
        split
        · rename_i hlt
          have hkpos : 1 ≤ flmK j2p j := by unfold flmK; omega
          have hji : j = i := by
            by_contra hne
            rcases Nat.lt_or_ge j i with hji | hji
            · have h1 := chain_le_diag s lo hi hlen i j hlo hhi
              rw [Nat.min_eq_right (le_of_lt hji)] at h1
              have h2 := hprev j j hgj.1 hji
              omega
            · have hji2 : i < j := by omega
              have h1 := chain_le_diag s lo hi hlen i j hlo hhi
              rw [Nat.min_eq_left (le_of_lt hji2)] at h1
              have hgd := guard_diag s lo hi i j hgj hlo hhi hlen
              rw [Nat.min_eq_left (le_of_lt hji2)] at hgd
              rcases hcov i hgd with hmem | hle
              · rcases List.mem_cons.mp hmem with heq | hmem'
                · omega
                · exact absurd (hj_lt i hmem') (by omega)
              · omega
          subst hji
          rfl
        · exact hdiag
      · -- previous rows still dominated
        intro i' j' hli' hi'
        split
        · rename_i hlt
          exact le_trans (hprev i' j' hli' hi') (le_of_lt hlt)
        · exact hprev i' j' hli' hi'
      · -- zero state is the initial state
        split
        · rename_i hlt
          intro hz
          dsimp only at hz
          unfold flmK at hz
          omega
        · exact hzero
      · -- the new row function
        intro j'
        by_cases hjj : j' = j
        · subst hjj
          rw [if_pos rfl, if_neg hjrest, hk]
        · rw [if_neg hjj, hnj j']
          by_cases hmem : j' ∈ rest
          · rw [if_pos hmem, if_pos (List.mem_cons_of_mem j hmem)]
          · rw [if_neg hmem, if_neg (by
              intro hc
              rcases List.mem_cons.mp hc with heq | hmem'
              · exact hjj heq
              · exact hmem hmem')]

theorem occList_pairwise (b : List Char) (c : Char) :
    (occList b c).Pairwise (· < ·) := by
  unfold occList
  exact (List.pairwise_lt_range _).filter _

theorem b2jList_pairwise (b : List Char) (c : Char) :
    (b2jList b c).Pairwise (· < ·) := by
  unfold b2jList
  split
  · exact List.Pairwise.nil
  · exact occList_pairwise b c

theorem flmRows_sym (s : List Char) (lo hi : Nat) (hlen : hi ≤ s.length) :
    ∀ (n r : Nat) (j2p : Nat → Nat) (st : FlmSt),
      lo ≤ r → r + n = hi →
      (∀ j', j2p j' = if lo < r then chain s lo hi (r - 1) j' else 0) →
      st.besti = st.bestj →
      (∀ i' j', lo ≤ i' → i' < r → chain s lo hi i' j' ≤ st.bestsize) →
      (st.bestsize = 0 → st = ⟨lo, lo, 0⟩) →
      (flmRows s s lo hi (List.range' r n) j2p st).besti
          = (flmRows s s lo hi (List.range' r n) j2p st).bestj ∧
        (∀ i' j', lo ≤ i' → i' < hi →
          chain s lo hi i' j' ≤ (flmRows s s lo hi (List.range' r n) j2p st).bestsize) ∧
        ((flmRows s s lo hi (List.range' r n) j2p st).bestsize = 0 →
          flmRows s s lo hi (List.range' r n) j2p st = ⟨lo, lo, 0⟩) := by
  intro n
  induction n with
  | zero =>
      intro r j2p st hr hrn _ hdiag hprev hzero
      refine ⟨hdiag, ?_, hzero⟩
      intro i' j' hli' hi'
      exact hprev i' j' hli' (by omega)
  | succ n ih =>
      intro r j2p st hr hrn hj2p hdiag hprev hzero
      show _ ∧ _ ∧ ((flmRows s s lo hi (r :: List.range' (r + 1) n) j2p st).bestsize = 0 →
        flmRows s s lo hi (r :: List.range' (r + 1) n) j2p st = ⟨lo, lo, 0⟩)
      simp only [flmRows]
      have hrhi : r < hi := by omega
      have hjs_mem : ∀ j', j' ∈ (b2jList s (s.getD r ' ')).filter
          (fun j => lo ≤ j && j < hi) ↔
          (lo ≤ j' ∧ j' < hi ∧ j' ∈ b2jList s (s.getD r ' ')) := by
        intro j'
        rw [List.mem_filter]
        simp only [Bool.and_eq_true, decide_eq_true_eq]
        constructor
        · rintro ⟨h1, h2, h3⟩; exact ⟨h2, h3, h1⟩
        · rintro ⟨h1, h2, h3⟩; exact ⟨h3, h1, h2⟩
      obtain ⟨hrow, hdiag', hprev', hzero'⟩ :=
        flmInner_sym s lo hi r hlen hr hrhi j2p hj2p
          ((b2jList s (s.getD r ' ')).filter (fun j => lo ≤ j && j < hi))
          (fun _ => 0) st
          ((b2jList_pairwise s (s.getD r ' ')).filter _)
          (fun j hj => (hjs_mem j).mp hj)
          (fun j' hg => Or.inl ((hjs_mem j').mpr hg))
          hdiag hprev hzero
          (by
            intro j'
            by_cases hmem : j' ∈ (b2jList s (s.getD r ' ')).filter
                (fun j => lo ≤ j && j < hi)
            · rw [if_pos hmem]
            · rw [if_neg hmem,
                chain_zero_of_not_guard s lo hi r j' (fun hg => hmem ((hjs_mem j').mpr hg))])
      refine ih (r + 1) _ _ (by omega) (by omega) ?_ hdiag' ?_ hzero'
      · intro j'
        rw [hrow j', if_pos (by omega : lo < r + 1)]
        simp only [Nat.add_sub_cancel]
      · intro i' j' hli' hi'
        exact hprev' i' j' hli' (by omega)

theorem extLeft_mono (a b : List Char) (alo blo : Nat) :
    ∀ (fuel : Nat) (st : FlmSt), st.bestsize ≤ (extLeft a b alo blo fuel st).bestsize := by
  intro fuel
  induction fuel with
  | zero => intro st; exact le_refl _
  | succ fuel ih =>
      intro st
      simp only [extLeft]
      split
      · exact le_trans (by dsimp only; omega) (ih ⟨st.besti - 1, st.bestj - 1, st.bestsize + 1⟩)
      · exact le_refl _

theorem extRight_mono (a b : List Char) (ahi bhi : Nat) :
    ∀ (fuel : Nat) (st : FlmSt), st.bestsize ≤ (extRight a b ahi bhi fuel st).bestsize := by
  intro fuel
  induction fuel with
  | zero => intro st; exact le_refl _
  | succ fuel ih =>
      intro st
      simp only [extRight]
      split
      · exact le_trans (by dsimp only; omega) (ih ⟨st.besti, st.bestj, st.bestsize + 1⟩)
      · exact le_refl _

theorem extLeft_diag (s : List Char) (lo : Nat) :
    ∀ (fuel : Nat) (st : FlmSt), st.besti = st.bestj →
      (extLeft s s lo lo fuel st).besti = (extLeft s s lo lo fuel st).bestj := by
  intro fuel
  induction fuel with
  | zero => intro st h; exact h
  | succ fuel ih =>
      intro st h
      simp only [extLeft]
      split
      · exact ih ⟨st.besti - 1, st.bestj - 1, st.bestsize + 1⟩ (by dsimp only; omega)
      · exact h

theorem extRight_diag (s : List Char) (hi : Nat) :
    ∀ (fuel : Nat) (st : FlmSt), st.besti = st.bestj →
      (extRight s s hi hi fuel st).besti = (extRight s s hi hi fuel st).bestj := by
  intro fuel
  induction fuel with
  | zero => intro st h; exact h
  | succ fuel ih =>
      intro st h
      simp only [extRight]
      split
      · exact ih ⟨st.besti, st.bestj, st.bestsize + 1⟩ h
      · exact h

theorem extLeft_stop (a b : List Char) (alo blo : Nat) (fuel : Nat) (st : FlmSt)
    (h : ¬ alo < st.besti) : extLeft a b alo blo fuel st = st := by
  cases fuel with
  | zero => rfl
  | succ fuel =>
      simp only [extLeft]
      rw [if_neg (by
        simp only [Bool.and_eq_true, decide_eq_true_eq]
        intro hc
        exact h hc.1.1)]

theorem extRight_step (s : List Char) (hi : Nat) (fuel : Nat) (st : FlmSt)
    (hd : st.besti = st.bestj) (hlt : st.besti + st.bestsize < hi) :
    st.bestsize + 1 ≤ (extRight s s hi hi (fuel + 1) st).bestsize := by
  simp only [extRight]
  rw [if_pos (by
    simp only [Bool.and_eq_true, decide_eq_true_eq]
    exact ⟨⟨hlt, by omega⟩, by rw [hd]⟩)]
  exact extRight_mono s s hi hi fuel ⟨st.besti, st.bestj, st.bestsize + 1⟩

theorem flm_sym (s : List Char) (lo hi : Nat) (hlo : lo ≤ hi) (hlen : hi ≤ s.length) :
    (findLongestMatch s s lo hi lo hi).besti = (findLongestMatch s s lo hi lo hi).bestj ∧
      (lo < hi → 1 ≤ (findLongestMatch s s lo hi lo hi).bestsize) := by
  obtain ⟨hd0, _, hz0⟩ := flmRows_sym s lo hi hlen (hi - lo) lo (fun _ => 0) ⟨lo, lo, 0⟩
    (le_refl lo) (by omega)
    (fun j' => by rw [if_neg (by omega : ¬ lo < lo)])
    rfl
    (fun i' j' h1 h2 => absurd (lt_of_le_of_lt h1 h2) (lt_irrefl lo))
    (fun _ => rfl)
  unfold findLongestMatch
  dsimp only
  constructor
  · exact extRight_diag s hi hi _ (extLeft_diag s lo _ _ hd0)
  · intro hlh
    by_cases hz : (flmRows s s lo hi (List.range' lo (hi - lo)) (fun _ => 0)
        ⟨lo, lo, 0⟩).bestsize = 0
    · rw [hz0 hz]
      rw [extLeft_stop s s lo lo _ ⟨lo, lo, 0⟩ (by dsimp only; omega)]
      obtain ⟨f, hf⟩ : ∃ f, hi = f + 1 := ⟨hi - 1, by omega⟩
      calc 1 = (⟨lo, lo, 0⟩ : FlmSt).bestsize + 1 := rfl
        _ ≤ _ := by
              rw [hf]
              exact extRight_step s (f + 1) f ⟨lo, lo, 0⟩ rfl (by dsimp only; omega)
    · have h1 : 1 ≤ (flmRows s s lo hi (List.range' lo (hi - lo)) (fun _ => 0)
          ⟨lo, lo, 0⟩).bestsize := by omega
      refine le_trans h1 (le_trans (extLeft_mono s s lo lo _ _)
        (extRight_mono s s hi hi _ _))

theorem matchSum_sym (s : List Char) :
    ∀ (fuel lo hi : Nat), lo ≤ hi → hi ≤ s.length → hi - lo ≤ fuel →
      matchSum s s fuel lo hi lo hi = hi - lo := by
  intro fuel
  induction fuel with
  | zero =>
      intro lo hi h1 _ h3
      simp only [matchSum]
      omega
  | succ fuel ih =>
      intro lo hi h1 h2 h3
      obtain ⟨w1, w2, w3, w4⟩ := flm_win s s lo hi lo hi h1 h1
      obtain ⟨hdiag, hpos⟩ := flm_sym s lo hi h1 h2
      simp only [matchSum]
      split
      · rename_i hz
        by_cases hlh : lo < hi
        · exact absurd hz (by have := hpos hlh; omega)
        · omega
      · rename_i hz
        have hbs : 1 ≤ (findLongestMatch s s lo hi lo hi).bestsize := by omega
        rw [← hdiag]
        rw [ih lo (findLongestMatch s s lo hi lo hi).besti w1 (by omega) (by omega)]
        rw [ih ((findLongestMatch s s lo hi lo hi).besti +
            (findLongestMatch s s lo hi lo hi).bestsize) hi (by omega) h2 (by omega)]
        omega

theorem ratio_self (l : List Char) : ratioOf l l = 1 := by
  have hm := matchSum_sym l (l.length + l.length + 1) 0 l.length (Nat.zero_le _)
    (le_refl _) (by omega)
  unfold ratioOf
  split
  · rfl
  · rename_i hne
    rw [hm, Nat.sub_zero]
    have hpos : (0 : ℚ) < (l.length : ℚ) + l.length := by
      have h1 : 0 < l.length + l.length := Nat.pos_of_ne_zero hne
      exact_mod_cast h1
    rw [div_eq_one_iff_eq (ne_of_gt hpos)]
    ring

/-- C6 (amended): the similarity scorer always yields a value in `[0, 1]`, and
`calculate_similarity x x = 1` for every non-empty string `x`; but the scorer is
NOT symmetric — `find_longest_match` breaks ties between equally long common
blocks by position in its first argument, so swapping the arguments can change
the result (e.g. on `"xycqab"` vs `"abxyzc"`). -/
theorem C6_amended :
    (∀ a b : String, 0 ≤ calculate_similarity a b ∧ calculate_similarity a b ≤ 1) ∧
    (∀ x : String, x ≠ "" → calculate_similarity x x = 1) ∧
    ¬ (∀ a b : String, calculate_similarity a b = calculate_similarity b a) := by
  refine ⟨?_, ?_, ?_⟩
  · intro a b
    exact ratio_range (pyLower a).data (pyLower b).data
  · intro x _
    exact ratio_self (pyLower x).data
  · intro h
    have e1 : calculate_similarity "xycqab" "abxyzc" = (2 * 3 : ℚ) / ((6 : ℚ) + 6) :=
      calcsim_concrete "xycqab" "abxyzc" 3 6 6 (by decide) (by decide) (by decide) (by decide)
    have e2 : calculate_similarity "abxyzc" "xycqab" = (2 * 2 : ℚ) / ((6 : ℚ) + 6) :=
      calcsim_concrete "abxyzc" "xycqab" 2 6 6 (by decide) (by decide) (by decide) (by decide)
    have hsym := h "xycqab" "abxyzc"
    rw [e1, e2] at hsym
    norm_num at hsym

/-- Witness for C6 (amended) at concrete inputs: the bounds at a concrete pair
and self-similarity `1` at the non-empty string `"Nature"`. -/
theorem C6_witness :
    (0 ≤ calculate_similarity "Nature" "Science" ∧
      calculate_similarity "Nature" "Science" ≤ 1) ∧
    calculate_similarity "Nature" "Nature" = 1 :=
  ⟨C6_amended.1 "Nature" "Science", C6_amended.2.1 "Nature" (by decide)⟩
